import Mathlib

/-
  Verification of the filter1d time-domain filtering engine (src/src/filter1d.c)
  against its natural-language specification.

  Modelling conventions:
  * C `double` values are modelled as exact rationals `ℚ`; a value that can be
    NaN is modelled as `Option ℚ` with `none` playing the role of NaN.
  * Arrays are modelled as `List`s; reads use `getD` with the default `some 0`
    (resp. `0`), matching the calloc-zeroed allocations of `gmt_M_memory`.
  * `lrint` under the default FP rounding mode rounds half to even; it is
    modelled exactly that way on ℚ.
  * External library collaborators (gmt_median, gmt_mode, gmt_extreme) are
    pure functions per the spec's interface contracts; the engine is
    parameterised over them.
-/

set_option maxHeartbeats 2000000
set_option linter.unusedVariables false

namespace Filter1d

/-- GMT_CONV8_LIMIT. -/
def eps8 : ℚ := 1 / 100000000

/-- A C double that may be NaN: `none` models NaN, `some q` a finite value. -/
abbrev Val := Option ℚ

/-- C `lrint` under the default rounding mode (round half to even). -/
def lrint (x : ℚ) : ℤ :=
  if x - ⌊x⌋ = 1 / 2 then (if 2 ∣ ⌊x⌋ then ⌊x⌋ else ⌊x⌋ + 1) else ⌊x + 1 / 2⌋

/-- filter1d.c:650 — advance the left edge of the filter window:
`while (left < n_rows && (T - t[left] - small) > half_width) ++left;`.
Structural recursion on a fuel argument (each iteration needs `l < t.length`,
so any fuel at least `t.length - l` realises the while loop exactly). -/
def advLeftF (t : List ℚ) (T hw small : ℚ) : ℕ → ℕ → ℕ
  | 0, l => l
  | fuel + 1, l =>
    if l < t.length ∧ hw < T - t.getD l 0 - small then advLeftF t T hw small fuel (l + 1)
    else l

def advLeft (t : List ℚ) (T hw small : ℚ) (l : ℕ) : ℕ :=
  advLeftF t T hw small t.length l

/-- filter1d.c:651 — advance the right edge of the filter window:
`while (right < n_rows && (t[right] - T - small) <= half_width) ++right;`. -/
def advRightF (t : List ℚ) (T hw small : ℚ) : ℕ → ℕ → ℕ
  | 0, r => r
  | fuel + 1, r =>
    if r < t.length ∧ t.getD r 0 - T - small ≤ hw then advRightF t T hw small fuel (r + 1)
    else r

def advRight (t : List ℚ) (T hw small : ℚ) (r : ℕ) : ℕ :=
  advRightF t T hw small t.length r

/-- Non-decreasing time column, as laid out in memory. -/
def TimesSorted (t : List ℚ) : Prop :=
  ∀ i j, i ≤ j → j < t.length → t.getD i 0 ≤ t.getD j 0

/-- One window-tracker update for one output point.  The point is a pair
`(T, half_width)`: in fixed-width mode every point carries the same
half-width, in variable-width mode filter1d.c:633-647 recomputes the
half-width (via `filter1d_set_up_filter`) before the pointers advance. -/
def trackStep (t : List ℚ) (small : ℚ) (st : ℕ × ℕ) (p : ℚ × ℚ) : ℕ × ℕ :=
  (advLeft t p.1 p.2 small st.1, advRight t p.1 p.2 small st.2)

/-- The tracker state after processing a sequence of output points. -/
def trackRun (t : List ℚ) (small : ℚ) (seq : List (ℚ × ℚ)) : ℕ × ℕ :=
  seq.foldl (trackStep t small) (0, 0)

/-- All rows before `l` are strictly left of the window for output time T. -/
def PriorL (t : List ℚ) (T hw small : ℚ) (l : ℕ) : Prop :=
  ∀ i, i < l → hw < T - t.getD i 0 - small

/-- All rows before `r` are not strictly right of the window for output time T. -/
def PriorR (t : List ℚ) (T hw small : ℚ) (r : ℕ) : Prop :=
  ∀ i, i < r → t.getD i 0 - T - small ≤ hw

/-- C2 helper: the brute-force window of an output point. -/
def bruteWin (t : List ℚ) (small hw T : ℚ) (i : ℕ) : Prop :=
  i < t.length ∧ T - t.getD i 0 - small ≤ hw ∧ t.getD i 0 - T - small ≤ hw

/-- The FILTER1D_INFO control structure (filter1d.c:109-167), restricted to the
fields the filtering loop reads.  `data` is column-major, exactly like
`F->data[col][row]`.  `minLoc`..`lastScl0` are the per-segment warm-start
bounds set at filter1d.c:1092-1099. -/
structure FInfo where
  nCols : ℕ
  tcol : ℕ
  nRows : ℕ
  data : List (List Val)
  robust : Bool
  highpass : Bool
  filterType : ℕ
  filterWidth : ℚ
  dt : ℚ
  equidist : Bool
  useEnds : Bool
  outAtTime : Bool
  tStartT : ℚ
  tStopT : ℚ
  tInc : ℚ
  checkLack : Bool
  lackWidth : ℚ
  checkAsym : Bool
  symCoeff : ℚ
  checkQ : Bool
  qFactor : ℚ
  coeffs : List ℚ
  halfWidth : ℚ
  halfN : ℕ
  nFwts : ℕ
  fWt : List ℚ
  fOperator : Bool
  tStart : ℚ
  tStop : ℚ
  minLoc : List ℚ
  maxLoc : List ℚ
  minScl : List ℚ
  maxScl : List ℚ
  lastLoc0 : List ℚ
  lastScl0 : List ℚ

/-- `F->data[c][r]`; out-of-range reads give the calloc value `some 0`. -/
def FInfo.val (F : FInfo) (c r : ℕ) : Val := (F.data.getD c []).getD r (some 0)

/-- `F->data[F->t_col][r]` read as a time (never NaN after loading). -/
def FInfo.time (F : FInfo) (r : ℕ) : ℚ := (F.val F.tcol r).getD 0

/-- The time column as a list. -/
def FInfo.times (F : FInfo) : List ℚ := (List.range F.nRows).map F.time

/-- Per-column mutable estimator state (this/last location and scale arrays). -/
structure RS where
  lastLoc : List ℚ
  thisLoc : List ℚ
  lastScl : List ℚ
  thisScl : List ℚ
deriving DecidableEq

/-- External statistical collaborators (spec section 6): `gmt_median`,
`gmt_mode` and `gmt_extreme` are pure library functions consumed as
black boxes; the engine is parameterised over them. -/
structure Ext where
  med : List ℚ → ℚ → ℚ → ℚ → ℚ
  modeEst : List ℚ → ℕ → ℚ
  extremeEst : List ℚ → ℚ

/-- A trivial instantiation of the external collaborators, used to run the
engine on concrete convolution examples (where they are never consulted). -/
def ext0 : Ext := ⟨fun _ _ _ la => la, fun _ _ => 0, fun _ => 0⟩

/-- filter1d.c:547-548 — inner scan of `filter1d_lack_check`: advance while the
sample is NOT NaN and the row is below `right - 1`.  Structural on fuel; any
fuel at least `bound - r` realises the while loop exactly. -/
def lackSkipF (F : FInfo) (c bound : ℕ) : ℕ → ℕ → ℕ
  | 0, r => r
  | fuel + 1, r =>
    if (F.val c r).isSome ∧ r < bound then lackSkipF F c bound fuel (r + 1) else r

def lackSkip (F : FInfo) (c bound r : ℕ) : ℕ := lackSkipF F c bound bound r

/-- filter1d.c:552-561 — outer loop of `filter1d_lack_check`.  Each pass
consumes at least one row below `bound`, so fuel `bound + 1` is enough. -/
def lackLoopF (F : FInfo) (c bound : ℕ) : ℕ → ℚ → ℕ → Bool
  | 0, _, _ => false
  | fuel + 1, lastT, r =>
    if r < bound then
      let r2 := lackSkip F c bound r
      if F.lackWidth < F.time r2 - lastT then true
      else lackLoopF F c bound fuel (F.time r2) (r2 + 1)
    else false

/-- filter1d.c:542-563 — `filter1d_lack_check` for column `c` over the window
`[left, right)`.  Returns `true` when the column is flagged as lacking. -/
def lackCheck (F : FInfo) (c left right : ℕ) : Bool :=
  let bound := right - 1
  let lastRow := lackSkip F c bound left
  lackLoopF F c bound (bound + 1) (F.time lastRow) (lastRow + 1)

/-- The window `[left, right)` as a list of row indices. -/
def winRows (left right : ℕ) : List ℕ := List.range' left (right - left)

/-- filter1d.c:736 — the filter-coefficient index for a row:
`i_f_wt = half_n_f_wts + lrint (floor (0.5 + delta_time/dt))`. -/
def tapIdx (F : FInfo) (T : ℚ) (i : ℕ) : ℤ :=
  (F.halfN : ℤ) + ⌊1 / 2 + (T - F.time i) / F.dt⌋

/-- filter1d.c:737 — row is dropped unless `0 <= i_f_wt < n_f_wts`. -/
def tapOk (F : FInfo) (T : ℚ) (i : ℕ) : Prop :=
  0 ≤ tapIdx F T i ∧ tapIdx F T i < (F.nFwts : ℤ)

instance (F : FInfo) (T : ℚ) (i : ℕ) : Decidable (tapOk F T i) :=
  inferInstanceAs (Decidable (_ ∧ _))

/-- The weight `f_wt[i_f_wt]` applied to row `i`. -/
def rowWt (F : FInfo) (T : ℚ) (i : ℕ) : ℚ := F.fWt.getD (tapIdx F T i).toNat 0

/-- Rows of the window that contribute to column `c` of the convolution sums:
in-range coefficient index and non-NaN sample (filter1d.c:737,741). -/
def contribRows (F : FInfo) (T : ℚ) (left right c : ℕ) : List ℕ :=
  (winRows left right).filter (fun i => decide (tapOk F T i) && (F.val c i).isSome)

/-- filter1d.c:747 — robust clipping of an outlier sample. -/
def clipVal (loc scl v : ℚ) : ℚ := if 5 / 2 * scl < |v - loc| then loc else v

/-- The sample value used in the weighted sum (clipped when robust). -/
def convVal (F : FInfo) (rs : RS) (c i : ℕ) : ℚ :=
  if F.robust then
    clipVal (rs.thisLoc.getD c 0) (rs.thisScl.getD c 0) ((F.val c i).getD 0)
  else (F.val c i).getD 0

/-- `wt_sum[c]` accumulated over the window (filter1d.c:753). -/
def convW (F : FInfo) (T : ℚ) (left right c : ℕ) : ℚ :=
  ((contribRows F T left right c).map (rowWt F T)).sum

/-- `data_sum[c]` accumulated over the window (filter1d.c:754). -/
def convD (F : FInfo) (T : ℚ) (left right : ℕ) (rs : RS) (c : ℕ) : ℚ :=
  ((contribRows F T left right c).map (fun i => rowWt F T i * convVal F rs c i)).sum

/-- `n_this_col[c]` accumulated over the window (filter1d.c:755). -/
def convN (F : FInfo) (T : ℚ) (left right c : ℕ) : ℕ :=
  (contribRows F T left right c).length

/-- `n_left[c]` counted during weight accumulation (filter1d.c:750). -/
def convNL (F : FInfo) (T : ℚ) (left right c : ℕ) : ℕ :=
  (contribRows F T left right c).countP (fun i => decide (F.time i < T))

/-- `n_right[c]` counted during weight accumulation (filter1d.c:751). -/
def convNR (F : FInfo) (T : ℚ) (left right c : ℕ) : ℕ :=
  (contribRows F T left right c).countP (fun i => decide (T < F.time i))

/-- The non-NaN window samples of column `c`, in time order — the work array
built at filter1d.c:675-687. -/
def workVals (F : FInfo) (left right c : ℕ) : List ℚ :=
  ((winRows left right).filter (fun i => (F.val c i).isSome)).map
    (fun i => (F.val c i).getD 0)

/-- `n_left[c]` counted during the robust work-array pass (filter1d.c:682). -/
def rsNL (F : FInfo) (T : ℚ) (left right c : ℕ) : ℕ :=
  (winRows left right).countP (fun i => (F.val c i).isSome && decide (F.time i < T))

/-- `n_right[c]` counted during the robust work-array pass (filter1d.c:683). -/
def rsNR (F : FInfo) (T : ℚ) (left right c : ℕ) : ℕ :=
  (winRows left right).countP (fun i => (F.val c i).isSome && decide (T < F.time i))

/-- filter1d.c:691-695 — the asymmetry decision from the two counters:
`diff = |n_l - n_r|` via branch on unsigned subtraction, fail when
`diff/(n_l+n_r) > sym_coeff`. -/
def symFail (sym : ℚ) (nl nr : ℕ) : Bool :=
  let diff : ℕ := if nr ≤ nl then nl - nr else nr - nl
  decide (sym < (diff : ℚ) / ((nl : ℚ) + (nr : ℚ)))

/-- filter1d.c:610 — `iq = lrint (F->q_factor)`. -/
def iqF (F : FInfo) : ℤ := lrint F.qFactor

/-- filter1d.c:658-667 — initial per-column gate: the time column never
passes; with the lack check enabled a column passes iff `filter1d_lack_check`
clears it. -/
def good0 (F : FInfo) (left right c : ℕ) : Bool :=
  if c = F.tcol then false
  else if F.checkLack then ! lackCheck F c left right
  else true

/-- filter1d.c:688-697 — the robust-pass asymmetry gate. -/
def goodA (F : FInfo) (T : ℚ) (left right c : ℕ) : Bool :=
  good0 F left right c &&
    ! (F.checkAsym && symFail F.symCoeff (rsNL F T left right c) (rsNR F T left right c))

/-- filter1d.c:698-702 — the minimum-count quality gate (non-convolution
filters only). -/
def goodQ (F : FInfo) (T : ℚ) (left right c : ℕ) : Bool :=
  goodA F T left right c &&
    ! (decide (3 < F.filterType) && F.checkQ &&
       decide (((workVals F left right c).length : ℤ) < iqF F))

/-- filter1d.c:565-594 — `filter1d_get_robust_estimates` for one column:
location by `gmt_extreme` / `gmt_mode` / warm-started `gmt_median` according
to the filter type; when `both`, also the scale (median absolute deviation
about the location) with its own warm-started bounds. -/
def getRobust (E : Ext) (F : FInfo) (c : ℕ) (w : List ℚ) (both : Bool) (rs : RS) : RS :=
  let temp :=
    if 5 < F.filterType then E.extremeEst w
    else if F.filterType = 5 then E.modeEst w (w.length / 2)
    else E.med w (F.minLoc.getD c 0) (F.maxLoc.getD c 0) (rs.lastLoc.getD c 0)
  let rs1 : RS := { rs with lastLoc := rs.lastLoc.set c temp,
                            thisLoc := rs.thisLoc.set c temp }
  if both then
    let scl := E.med (w.map (fun x => |x - temp|)) (F.minScl.getD c 0)
      (F.maxScl.getD c 0) (rs.lastScl.getD c 0)
    { rs1 with lastScl := rs1.lastScl.set c scl, thisScl := rs1.thisScl.set c scl }
  else rs1

/-- filter1d.c:704-709 — run the robust estimator over all passing columns. -/
def robustUpdate (E : Ext) (F : FInfo) (left right : ℕ) (g : ℕ → Bool) (rs : RS) : RS :=
  (List.range F.nCols).foldl
    (fun acc c => if g c then getRobust E F c (workVals F left right c) F.robust acc
                  else acc) rs

/-- filter1d.c:760-781 — the final per-column convolution gates: nonzero
sample count, asymmetry (when not already done in the robust pass), and the
mean-weight quality factor. -/
def goodConv (F : FInfo) (T : ℚ) (left right : ℕ) (g : ℕ → Bool) (c : ℕ) : Bool :=
  g c && decide (convN F T left right c ≠ 0) &&
    ! (F.checkAsym && !F.robust &&
       symFail F.symCoeff (convNL F T left right c) (convNR F T left right c)) &&
    ! (F.checkQ &&
       decide (convW F T left right c / (convN F T left right c : ℚ) < F.qFactor))

/-- filter1d.c:788-789 — one output cell of the convolution branch. -/
def convOut (F : FInfo) (T : ℚ) (k left right : ℕ) (rs : RS) (c : ℕ) : Val :=
  let v := if F.fOperator then convD F T left right rs c
           else convD F T left right rs c / convW F T left right c
  if F.highpass then (F.val c k).map (fun w => w - v) else some v

/-- filter1d.c:783-793 — the output record of the convolution branch. -/
def convRecord (F : FInfo) (T : ℚ) (k left right : ℕ) (rs : RS)
    (gFinal : ℕ → Bool) : List Val :=
  (List.range F.nCols).map (fun c =>
    if c = F.tcol then some T
    else if gFinal c then convOut F T k left right rs c
    else none)

/-- filter1d.c:717-728 — the output record of the non-convolution branch. -/
def statRecord (F : FInfo) (T : ℚ) (k : ℕ) (g : ℕ → Bool) (rs : RS) : List Val :=
  (List.range F.nCols).map (fun c =>
    if c = F.tcol then some T
    else if g c then
      (if F.highpass then (F.val c k).map (fun v => v - rs.thisLoc.getD c 0)
       else some (rs.thisLoc.getD c 0))
    else none)

/-- `n_good_ones` — number of passing non-time columns. -/
def nGoodOnes (F : FInfo) (g : ℕ → Bool) : ℕ :=
  (List.range F.nCols).countP (fun c => decide (c ≠ F.tcol) && g c)

/-- The window pointers computed at the top of one loop iteration. -/
def stepLR (F : FInfo) (Tarr : List ℚ) (small : ℚ) (k : ℕ) (st : (ℕ × ℕ) × RS) : ℕ × ℕ :=
  trackStep F.times small st.1 (Tarr.getD k 0, F.halfWidth)

/-- filter1d.c:649-656 — skip condition: empty window, or lack check enabled
and `filter_width / n_in_filter > lack_width`. -/
def skipPoint (F : FInfo) (left right : ℕ) : Prop :=
  right - left = 0 ∨
    (F.checkLack = true ∧ F.lackWidth < F.filterWidth / ((right - left : ℕ) : ℚ))

instance (F : FInfo) (left right : ℕ) : Decidable (skipPoint F left right) :=
  inferInstanceAs (Decidable (_ ∨ _))

/-- One iteration of the main loop of `filter1d_do_the_filter`
(filter1d.c:632-798), for one output index `k`, fixed-width mode.
Returns the new state (window pointers and estimator state) and the record
emitted, if any. -/
def filterStep (E : Ext) (F : FInfo) (Tarr : List ℚ) (small : ℚ) (k : ℕ)
    (st : (ℕ × ℕ) × RS) : ((ℕ × ℕ) × RS) × Option (List Val) :=
  let T := Tarr.getD k 0
  let lr := stepLR F Tarr small k st
  let left := lr.1
  let right := lr.2
  let rs := st.2
  if skipPoint F left right then ((lr, rs), none)
  else if F.robust = true ∨ 3 < F.filterType then
    let g := goodQ F T left right
    let rs2 := robustUpdate E F left right g rs
    if 3 < F.filterType then
      ((lr, rs2),
       if 0 < nGoodOnes F g then some (statRecord F T k g rs2) else none)
    else
      let gc := goodConv F T left right g
      ((lr, rs2),
       if 0 < nGoodOnes F gc then some (convRecord F T k left right rs2 gc) else none)
  else
    let g := good0 F left right
    let gc := goodConv F T left right g
    ((lr, rs),
     if 0 < nGoodOnes F gc then some (convRecord F T k left right rs gc) else none)

/-- filter1d.c:632-798 — the main loop over output indices. -/
def runLoop (E : Ext) (F : FInfo) (Tarr : List ℚ) (small : ℚ) :
    List ℕ → ((ℕ × ℕ) × RS) → List (List Val)
  | [], _ => []
  | k :: ks, st =>
    let r := filterStep E F Tarr small k st
    r.2.toList ++ runLoop E F Tarr small ks r.1

/-- Modelled from the spec: `gmt_create_array` (not part of src/) materialises
the resampled output times "synthesized from a start/stop/increment triple". -/
def createArray (a b inc : ℚ) : List ℚ :=
  (List.range ((⌊(b - a) / inc⌋).toNat + 1)).map (fun i : ℕ => a + (i : ℚ) * inc)

/-- The output-time array: synthesized in resampling mode (filter1d.c:612-617),
copied from the input times in native mode (filter1d.c:618-623). -/
def outTimes (F : FInfo) : List ℚ :=
  if F.outAtTime then createArray F.tStart F.tStop F.tInc else F.times

/-- filter1d.c:621 — first native output index: `for (k = 0; t[k] < t_start; ++k)`.
The C loop is unbounded; runs past the data are excluded by hypotheses. -/
def natK0 (F : FInfo) : ℕ :=
  (List.range F.nRows).findIdx (fun k => ! decide (F.time k < F.tStart))

/-- filter1d.c:622 — last native output index:
`for (last_k = n_rows-1; last_k && t[last_k] > t_stop; --last_k)`. -/
def natLastKAux (F : FInfo) : ℕ → ℕ
  | 0 => 0
  | r + 1 => if F.tStop < F.time (r + 1) then natLastKAux F r else r + 1

def natLastK (F : FInfo) : ℕ := natLastKAux F (F.nRows - 1)

/-- Initial estimator state for a segment: `last_loc`/`last_scl` were set at
filter1d.c:1092-1099, `this_loc`/`this_scl` are calloc-zeroed. -/
def rs0 (F : FInfo) : RS :=
  ⟨F.lastLoc0, List.replicate F.nCols 0, F.lastScl0, List.replicate F.nCols 0⟩

/-- First output index (filter1d.c:615 resp. 621). -/
def runK0 (F : FInfo) : ℕ := if F.outAtTime then 0 else natK0 F

/-- Last output index (filter1d.c:616 resp. 622). -/
def runLastK (F : FInfo) : ℕ :=
  if F.outAtTime then (outTimes F).length - 1 else natLastK F

/-- The output indices visited by the main loop (`while (k <= last_k)`). -/
def runKs (F : FInfo) : List ℕ := List.range' (runK0 F) (runLastK F + 1 - runK0 F)

/-- filter1d.c:624 — `small = (T.array[1] - T.array[0]) * GMT_CONV8_LIMIT`. -/
def runSmall (F : FInfo) : ℚ :=
  ((outTimes F).getD 1 0 - (outTimes F).getD 0 0) * eps8

/-- `filter1d_do_the_filter` (filter1d.c:596-808), fixed-width mode. -/
def doFilter (E : Ext) (F : FInfo) : List (List Val) :=
  runLoop E F (outTimes F) (runSmall F) (runKs F) ((0, 0), rs0 F)

/-- The loop state just before processing the output index following `ks`. -/
def stateAt (E : Ext) (F : FInfo) (ks : List ℕ) : (ℕ × ℕ) × RS :=
  ks.foldl (fun st k => (filterStep E F (outTimes F) (runSmall F) k st).1)
    ((0, 0), rs0 F)

/-- filter1d.c:435-437 — `filter1d_boxcar_weight`. -/
def boxcarWeight (radius halfWidth : ℚ) : ℚ := if halfWidth < radius then 0 else 1

/-- filter1d.c:530-533 — native-mode trimmed start: scan forward for the first
row at least `half_width` inside the series start. -/
def startScan (F : FInfo) (sm hw t0 : ℚ) : ℕ :=
  (List.range F.nRows).findIdx (fun row => ! decide (F.time row - t0 + sm < hw))

/-- filter1d.c:532 — native-mode trimmed stop: scan backward for the last row
at least `half_width` inside the series end (never below row 0). -/
def stopScan (F : FInfo) (sm hw t1 : ℚ) : ℕ → ℕ
  | 0 => 0
  | r + 1 => if t1 - F.time (r + 1) + sm < hw then stopScan F sm hw t1 r else r + 1

/-- `filter1d_set_up_filter` (filter1d.c:459-540) for the filters the claims
exercise: boxcar coefficients built per the mirrored loop at lines 491-496
(expressed via the tap index), custom coefficients per lines 468-481
(cosine-arch and Gaussian weights are transcendental and touched by no
claim), then the output range policy of lines 503-535 (for resampling mode,
the explicit min/max/inc case `T.set == 3`). -/
def setUp (F : FInfo) : FInfo :=
  let t0 := F.time 0
  let t1 := F.time (F.nRows - 1)
  let dt := if F.equidist then (t1 - t0) / ((F.nRows : ℚ) - 1) else F.dt
  let F1 :=
    if F.filterType = 3 then
      let ws := F.coeffs.sum
      let fop := decide (|ws| < eps8)
      let fwt := if 1 < ws then F.coeffs.map (fun x => x / ws) else F.coeffs
      let hn := F.coeffs.length / 2
      let hw := (hn : ℚ) * dt
      { F with dt := dt, fWt := fwt, fOperator := fop, nFwts := F.coeffs.length,
               halfN := hn, halfWidth := hw, filterWidth := 2 * hw }
    else if F.filterType ≤ 3 then
      let hw := F.filterWidth / 2
      let hn := (lrint (hw / dt)).toNat
      let nf := 2 * hn + 1
      let fwt := (List.range nf).map (fun j : ℕ =>
        if F.filterType = 0 then
          boxcarWeight ((((j : ℤ) - (hn : ℤ)).natAbs : ℚ) * dt) hw
        else 0)
      { F with dt := dt, halfWidth := hw, halfN := hn, nFwts := nf, fWt := fwt }
    else
      { F with dt := dt, halfWidth := F.filterWidth / 2 }
  if F.outAtTime then
    let ts := if F.tStartT < t0 then
        F.tStartT + (⌊(t0 - F.tStartT) / F.tInc⌋ : ℚ) * F.tInc
      else F.tStartT
    let te := if t1 < F.tStopT then
        F.tStopT - (⌊(F.tStopT - t1) / F.tInc⌋ : ℚ) * F.tInc
      else F.tStopT
    if F.useEnds then { F1 with tStart := ts, tStop := te }
    else { F1 with tStart := ts + F1.halfWidth, tStop := te - F1.halfWidth }
  else
    if F.useEnds then { F1 with tStart := t0, tStop := t1 }
    else
      let sm := (F.time 1 - F.time 0) * eps8
      { F1 with tStart := F.time (startScan F sm F1.halfWidth t0),
                tStop := F.time (stopScan F sm F1.halfWidth t1 (F.nRows - 1)) }

/-- GMT_filter1d segment loading loop (filter1d.c:1073-1087).  `S` are the
segment columns as read (column-major), `nIn` the segment row count.  The C
for-loop increment clause `++row, ++F.n_rows` also runs after `continue`;
the destination arrays are calloc-zeroed (`some 0`).  Returns `none` on the
fatal decreasing-time error, otherwise the final `F.n_rows` and the filled
arrays. -/
def loadLoop (tcol : ℕ) (S : List (List Val)) (nIn : ℕ) :
    ℕ → ℕ → ℕ → Option ℚ → List (List Val) → Option (ℕ × List (List Val))
  | 0, _, nRows, _, out => some (nRows, out)
  | fuel + 1, row, nRows, lastT, out =>
    if row < nIn then
      match (S.getD tcol []).getD row (some 0) with
      | none => loadLoop tcol S nIn fuel (row + 1) (nRows + 1) lastT out
      | some tv =>
        -- `last_time` starts at -DBL_MAX: below, `lastT.getD tv` makes the
        -- comparison false on the first retained row, as in C.
        if tv < lastT.getD tv then none
        else
          let out2 := List.zipWith
            (fun (colIn colOut : List Val) => colOut.set nRows (colIn.getD row (some 0)))
            S out
          loadLoop tcol S nIn fuel (row + 1) (nRows + 1) (some tv) out2
    else some (nRows, out)

def loadSegment (tcol : ℕ) (S : List (List Val)) (nIn : ℕ) :
    Option (ℕ × List (List Val)) :=
  loadLoop tcol S nIn nIn 0 0 none (S.map (fun _ => List.replicate nIn (some 0)))

instance (t : List ℚ) (small hw T : ℚ) (i : ℕ) : Decidable (bruteWin t small hw T i) :=
  inferInstanceAs (Decidable (_ ∧ _))

/-- The final per-column gate actually applied by `filterStep`, by branch. -/
def stepGood (E : Ext) (F : FInfo) (Tarr : List ℚ) (small : ℚ) (k : ℕ)
    (st : (ℕ × ℕ) × RS) : ℕ → Bool :=
  let T := Tarr.getD k 0
  let lr := stepLR F Tarr small k st
  if F.robust = true ∨ 3 < F.filterType then
    if 3 < F.filterType then goodQ F T lr.1 lr.2
    else goodConv F T lr.1 lr.2 (goodQ F T lr.1 lr.2)
  else goodConv F T lr.1 lr.2 (good0 F lr.1 lr.2)

/-- A default parameter block (all gates off, boxcar, native output,
equidistant estimation); concrete runs override what they need. -/
def infoDefault : FInfo where
  nCols := 2
  tcol := 0
  nRows := 5
  data := []
  robust := false
  highpass := false
  filterType := 0
  filterWidth := 2
  dt := 0
  equidist := true
  useEnds := false
  outAtTime := false
  tStartT := 0
  tStopT := 0
  tInc := 0
  checkLack := false
  lackWidth := 0
  checkAsym := false
  symCoeff := 0
  checkQ := false
  qFactor := 0
  coeffs := []
  halfWidth := 0
  halfN := 0
  nFwts := 0
  fWt := []
  fOperator := false
  tStart := 0
  tStop := 0
  minLoc := [0, 0]
  maxLoc := [0, 0]
  minScl := [0, 0]
  maxScl := [0, 0]
  lastLoc0 := [0, 0]
  lastScl0 := [0, 0]

/-- The spec's end-to-end scenario: rows (t,v) = (0,1)..(4,5), boxcar width 2,
dt = 1, native output, include-ends off. -/
def infoScenario : FInfo := { infoDefault with
  data := [[some 0, some 1, some 2, some 3, some 4],
           [some 1, some 2, some 3, some 4, some 5]] }

/-- An irregularly spaced series: times 0, 1, 7/5, 2, 4 (estimated dt = 1),
boxcar width 6/5. -/
def infoIrregular : FInfo := { infoDefault with
  data := [[some 0, some 1, some (7/5), some 2, some 4],
           [some 0, some 0, some 0, some 6, some 0]],
  filterWidth := 6/5 }

/-- Highpass boxcar width 2 over rows (t,v) = (0,10)..(4,50), resampled
output -T0/4/1. -/
def infoHighpass : FInfo := { infoDefault with
  data := [[some 0, some 1, some 2, some 3, some 4],
           [some 10, some 20, some 30, some 40, some 50]],
  highpass := true, outAtTime := true, tStartT := 0, tStopT := 4, tInc := 1 }

/-- All-present window at times 0, 1, 2, 10, 11 with a lack width of 5. -/
def infoLack : FInfo := { infoDefault with
  data := [[some 0, some 1, some 2, some 10, some 11],
           [some 1, some 1, some 1, some 1, some 1]],
  checkLack := true, lackWidth := 5 }

/-- Modelled from the spec: the per-column lack-of-data gate as the spec
states it — walk the present samples' times in order and fail exactly when
some gap between consecutive present samples exceeds `lw`. -/
def specLackFail (ts : List ℚ) (lw : ℚ) : Bool :=
  (List.zip ts ts.tail).any (fun p => decide (lw < p.2 - p.1))

/-- A three-column series whose last column is entirely NaN, with the boxcar
coefficients of width 2 at dt = 1 already set up. -/
def infoNanCol : FInfo := { infoDefault with
  nCols := 3,
  data := [[some 0, some 1, some 2, some 3, some 4],
           [some 1, some 2, some 3, some 4, some 5],
           [none, none, none, none, none]],
  dt := 1, halfWidth := 1, halfN := 1, nFwts := 3, fWt := [1, 1, 1] }

/-- An asymmetric window: column 1 has three samples strictly before the
output time 5 and none after. -/
def infoAsym : FInfo := { infoDefault with
  data := [[some 0, some 1, some 2, some 5],
           [some 7, some 8, some 9, some 10]],
  nRows := 4, checkAsym := true, symCoeff := 1 / 2,
  dt := 1, halfWidth := 1, halfN := 1, nFwts := 3, fWt := [1, 1, 1] }

/-- A custom operator filter: coefficients [-1, 1] (sum 0), already set up. -/
def infoCustomOp : FInfo := { infoDefault with
  filterType := 3, fOperator := true, coeffs := [-1, 1], fWt := [-1, 1],
  nFwts := 2, halfN := 1, halfWidth := 1, dt := 1,
  data := [[some 0, some 1, some 2, some 3, some 4],
           [some 1, some 2, some 3, some 4, some 5]] }

/-- Lengths of the four estimator-state arrays. -/
def rsLen (F : FInfo) (rs : RS) : Prop :=
  rs.lastLoc.length = F.nCols ∧ rs.thisLoc.length = F.nCols ∧
  rs.lastScl.length = F.nCols ∧ rs.thisScl.length = F.nCols

instance (F : FInfo) (rs : RS) : Decidable (rsLen F rs) :=
  inferInstanceAs (Decidable (_ ∧ _))

/-- The warm-started location of a column: `gmt_median` over the window's
non-NaN samples, hinted by the column's running bounds and previous
estimate. -/
def warmLoc (E : Ext) (F : FInfo) (rs : RS) (L R c : ℕ) : ℚ :=
  E.med (workVals F L R c) (F.minLoc.getD c 0) (F.maxLoc.getD c 0)
    (rs.lastLoc.getD c 0)

/-- The warm-started scale of a column: `gmt_median` of the absolute
deviations about the just-computed location, with its own bounds. -/
def warmScl (E : Ext) (F : FInfo) (rs : RS) (L R c : ℕ) : ℚ :=
  E.med ((workVals F L R c).map (fun x => |x - warmLoc E F rs L R c|))
    (F.minScl.getD c 0) (F.maxScl.getD c 0) (rs.lastScl.getD c 0)

/-- A robust boxcar filter (width 2, dt 1) over rows (t,v) = (0,1), (1,2),
(2,3), (3,10), (4,5), with warm-start state location 3 and scale 1/2 for
column 1. -/
def infoRobust : FInfo := { infoDefault with
  robust := true,
  data := [[some 0, some 1, some 2, some 3, some 4],
           [some 1, some 2, some 3, some 10, some 5]],
  dt := 1, halfWidth := 1, halfN := 1, nFwts := 3, fWt := [1, 1, 1],
  minLoc := [0, 0], maxLoc := [0, 10], minScl := [0, 0], maxScl := [0, 5],
  lastLoc0 := [0, 3], lastScl0 := [0, 1 / 2] }

/-- A native highpass boxcar (width 2, dt 1) over rows (t,v) = (0,1)..(4,5),
with the coefficients already set up. -/
def infoHpNative : FInfo := { infoDefault with
  data := [[some 0, some 1, some 2, some 3, some 4],
           [some 1, some 2, some 3, some 4, some 5]],
  highpass := true, dt := 1, halfWidth := 1, halfN := 1, nFwts := 3,
  fWt := [1, 1, 1] }

/-- The specification's boxcar output (spec section on -Fb): the arithmetic
mean of the non-NaN samples of column `c` whose time lies within `W/2` of the
output time `T`; `none` when no such sample exists. -/
def specWindowMean (F : FInfo) (W T : ℚ) (c : ℕ) : Val :=
  let S := (List.range F.nRows).filter (fun i =>
    decide (|F.time i - T| ≤ W / 2) && (F.val c i).isSome)
  if S.length = 0 then none
  else some ((S.map (fun i => (F.val c i).getD 0)).sum / (S.length : ℚ))

theorem advLeftF_irrel (t : List ℚ) (T hw small : ℚ) :
    ∀ f1 f2 l, t.length - l ≤ f1 → t.length - l ≤ f2 →
      advLeftF t T hw small f1 l = advLeftF t T hw small f2 l := by
  intro f1
  induction f1 with
  | zero =>
    intro f2 l h1 h2
    cases f2 with
    | zero => rfl
    | succ f2 =>
      rw [advLeftF, advLeftF, if_neg]
      intro hc
      omega
  | succ f1 ih =>
    intro f2 l h1 h2
    cases f2 with
    | zero =>
      rw [advLeftF, advLeftF, if_neg]
      intro hc
      omega
    | succ f2 =>
      rw [advLeftF, advLeftF]
      by_cases hc : l < t.length ∧ hw < T - t.getD l 0 - small
      · rw [if_pos hc, if_pos hc]
        exact ih f2 (l + 1) (by omega) (by omega)
      · rw [if_neg hc, if_neg hc]

theorem advRightF_irrel (t : List ℚ) (T hw small : ℚ) :
    ∀ f1 f2 r, t.length - r ≤ f1 → t.length - r ≤ f2 →
      advRightF t T hw small f1 r = advRightF t T hw small f2 r := by
  intro f1
  induction f1 with
  | zero =>
    intro f2 r h1 h2
    cases f2 with
    | zero => rfl
    | succ f2 =>
      rw [advRightF, advRightF, if_neg]
      intro hc
      omega
  | succ f1 ih =>
    intro f2 r h1 h2
    cases f2 with
    | zero =>
      rw [advRightF, advRightF, if_neg]
      intro hc
      omega
    | succ f2 =>
      rw [advRightF, advRightF]
      by_cases hc : r < t.length ∧ t.getD r 0 - T - small ≤ hw
      · rw [if_pos hc, if_pos hc]
        exact ih f2 (r + 1) (by omega) (by omega)
      · rw [if_neg hc, if_neg hc]

/-- One unfolding of the left-pointer loop when the advance condition holds. -/
theorem advLeft_step (t : List ℚ) (T hw small : ℚ) (l : ℕ)
    (h : l < t.length ∧ hw < T - t.getD l 0 - small) :
    advLeft t T hw small l = advLeft t T hw small (l + 1) := by
  unfold advLeft
  rw [advLeftF_irrel t T hw small t.length (t.length + 1) l (by omega) (by omega)]
  rw [advLeftF, if_pos h]

theorem advRight_step (t : List ℚ) (T hw small : ℚ) (r : ℕ)
    (h : r < t.length ∧ t.getD r 0 - T - small ≤ hw) :
    advRight t T hw small r = advRight t T hw small (r + 1) := by
  unfold advRight
  rw [advRightF_irrel t T hw small t.length (t.length + 1) r (by omega) (by omega)]
  rw [advRightF, if_pos h]

/-- The loops stop as soon as the advance condition fails. -/
theorem advLeft_fix (t : List ℚ) (T hw small : ℚ) (l : ℕ)
    (h : ¬ (l < t.length ∧ hw < T - t.getD l 0 - small)) :
    advLeft t T hw small l = l := by
  unfold advLeft
  rw [advLeftF_irrel t T hw small t.length (t.length + 1) l (by omega) (by omega)]
  rw [advLeftF, if_neg h]

theorem advRight_fix (t : List ℚ) (T hw small : ℚ) (r : ℕ)
    (h : ¬ (r < t.length ∧ t.getD r 0 - T - small ≤ hw)) :
    advRight t T hw small r = r := by
  unfold advRight
  rw [advRightF_irrel t T hw small t.length (t.length + 1) r (by omega) (by omega)]
  rw [advRightF, if_neg h]

theorem advLeft_ge (t : List ℚ) (T hw small : ℚ) (l : ℕ) : l ≤ advLeft t T hw small l := by
  have H : ∀ n l, t.length - l ≤ n → l ≤ advLeft t T hw small l := by
    intro n
    induction n with
    | zero =>
      intro l hl
      rw [advLeft_fix t T hw small l (by intro hc; omega)]
    | succ n ih =>
      intro l hl
      by_cases hc : l < t.length ∧ hw < T - t.getD l 0 - small
      · rw [advLeft_step t T hw small l hc]
        have := ih (l + 1) (by omega)
        omega
      · rw [advLeft_fix t T hw small l hc]
  exact H (t.length - l) l le_rfl

theorem advRight_ge (t : List ℚ) (T hw small : ℚ) (r : ℕ) : r ≤ advRight t T hw small r := by
  have H : ∀ n r, t.length - r ≤ n → r ≤ advRight t T hw small r := by
    intro n
    induction n with
    | zero =>
      intro r hr
      rw [advRight_fix t T hw small r (by intro hc; omega)]
    | succ n ih =>
      intro r hr
      by_cases hc : r < t.length ∧ t.getD r 0 - T - small ≤ hw
      · rw [advRight_step t T hw small r hc]
        have := ih (r + 1) (by omega)
        omega
      · rw [advRight_fix t T hw small r hc]
  exact H (t.length - r) r le_rfl

theorem advLeft_le_length (t : List ℚ) (T hw small : ℚ) (l : ℕ) (hl : l ≤ t.length) :
    advLeft t T hw small l ≤ t.length := by
  have H : ∀ n l, t.length - l ≤ n → l ≤ t.length → advLeft t T hw small l ≤ t.length := by
    intro n
    induction n with
    | zero =>
      intro l h1 h2
      rw [advLeft_fix t T hw small l (by intro hc; omega)]
      exact h2
    | succ n ih =>
      intro l h1 h2
      by_cases hc : l < t.length ∧ hw < T - t.getD l 0 - small
      · rw [advLeft_step t T hw small l hc]
        exact ih (l + 1) (by omega) (by omega)
      · rw [advLeft_fix t T hw small l hc]
        exact h2
  exact H (t.length - l) l le_rfl hl

theorem advRight_le_length (t : List ℚ) (T hw small : ℚ) (r : ℕ) (hr : r ≤ t.length) :
    advRight t T hw small r ≤ t.length := by
  have H : ∀ n r, t.length - r ≤ n → r ≤ t.length → advRight t T hw small r ≤ t.length := by
    intro n
    induction n with
    | zero =>
      intro r h1 h2
      rw [advRight_fix t T hw small r (by intro hc; omega)]
      exact h2
    | succ n ih =>
      intro r h1 h2
      by_cases hc : r < t.length ∧ t.getD r 0 - T - small ≤ hw
      · rw [advRight_step t T hw small r hc]
        exact ih (r + 1) (by omega) (by omega)
      · rw [advRight_fix t T hw small r hc]
        exact h2
  exact H (t.length - r) r le_rfl hr

/-- Every index passed over by `advLeft` satisfied the advance condition. -/
theorem advLeft_cond (t : List ℚ) (T hw small : ℚ) (l : ℕ) :
    ∀ i, l ≤ i → i < advLeft t T hw small l →
      i < t.length ∧ hw < T - t.getD i 0 - small := by
  have H : ∀ n l, t.length - l ≤ n → ∀ i, l ≤ i → i < advLeft t T hw small l →
      i < t.length ∧ hw < T - t.getD i 0 - small := by
    intro n
    induction n with
    | zero =>
      intro l hl i hi1 hi2
      rw [advLeft_fix t T hw small l (by intro hc; omega)] at hi2
      omega
    | succ n ih =>
      intro l hl i hi1 hi2
      by_cases hc : l < t.length ∧ hw < T - t.getD l 0 - small
      · rw [advLeft_step t T hw small l hc] at hi2
        rcases Nat.eq_or_lt_of_le hi1 with he | hlt
        · exact he ▸ hc
        · exact ih (l + 1) (by omega) i hlt hi2
      · rw [advLeft_fix t T hw small l hc] at hi2
        omega
  exact H (t.length - l) l le_rfl

/-- Every index passed over by `advRight` satisfied the advance condition. -/
theorem advRight_cond (t : List ℚ) (T hw small : ℚ) (r : ℕ) :
    ∀ i, r ≤ i → i < advRight t T hw small r →
      i < t.length ∧ t.getD i 0 - T - small ≤ hw := by
  have H : ∀ n r, t.length - r ≤ n → ∀ i, r ≤ i → i < advRight t T hw small r →
      i < t.length ∧ t.getD i 0 - T - small ≤ hw := by
    intro n
    induction n with
    | zero =>
      intro r hr i hi1 hi2
      rw [advRight_fix t T hw small r (by intro hc; omega)] at hi2
      omega
    | succ n ih =>
      intro r hr i hi1 hi2
      by_cases hc : r < t.length ∧ t.getD r 0 - T - small ≤ hw
      · rw [advRight_step t T hw small r hc] at hi2
        rcases Nat.eq_or_lt_of_le hi1 with he | hlt
        · exact he ▸ hc
        · exact ih (r + 1) (by omega) i hlt hi2
      · rw [advRight_fix t T hw small r hc] at hi2
        omega
  exact H (t.length - r) r le_rfl

/-- The index `advLeft` stops at (when in bounds) fails the advance condition. -/
theorem advLeft_stop (t : List ℚ) (T hw small : ℚ) (l : ℕ)
    (h : advLeft t T hw small l < t.length) :
    ¬ hw < T - t.getD (advLeft t T hw small l) 0 - small := by
  have H : ∀ n l, t.length - l ≤ n → advLeft t T hw small l < t.length →
      ¬ hw < T - t.getD (advLeft t T hw small l) 0 - small := by
    intro n
    induction n with
    | zero =>
      intro l hl hlen
      rw [advLeft_fix t T hw small l (by intro hc; omega)] at hlen
      omega
    | succ n ih =>
      intro l hl hlen
      by_cases hc : l < t.length ∧ hw < T - t.getD l 0 - small
      · rw [advLeft_step t T hw small l hc] at hlen ⊢
        exact ih (l + 1) (by omega) hlen
      · rw [advLeft_fix t T hw small l hc] at hlen ⊢
        intro hcond
        exact hc ⟨hlen, hcond⟩
  exact H (t.length - l) l le_rfl h

/-- The index `advRight` stops at (when in bounds) fails the advance condition. -/
theorem advRight_stop (t : List ℚ) (T hw small : ℚ) (r : ℕ)
    (h : advRight t T hw small r < t.length) :
    ¬ t.getD (advRight t T hw small r) 0 - T - small ≤ hw := by
  have H : ∀ n r, t.length - r ≤ n → advRight t T hw small r < t.length →
      ¬ t.getD (advRight t T hw small r) 0 - T - small ≤ hw := by
    intro n
    induction n with
    | zero =>
      intro r hr hlen
      rw [advRight_fix t T hw small r (by intro hc; omega)] at hlen
      omega
    | succ n ih =>
      intro r hr hlen
      by_cases hc : r < t.length ∧ t.getD r 0 - T - small ≤ hw
      · rw [advRight_step t T hw small r hc] at hlen ⊢
        exact ih (r + 1) (by omega) hlen
      · rw [advRight_fix t T hw small r hc] at hlen ⊢
        intro hcond
        exact hc ⟨hlen, hcond⟩
  exact H (t.length - r) r le_rfl h

/-- If all indices below `l` satisfy the advance condition, starting at `l`
gives the same result as starting from 0 (resumability of the two-pointer). -/
theorem advLeft_from_zero (t : List ℚ) (T hw small : ℚ) (l : ℕ) (hl : l ≤ t.length)
    (h : ∀ i, i < l → hw < T - t.getD i 0 - small) :
    advLeft t T hw small 0 = advLeft t T hw small l := by
  induction l with
  | zero => rfl
  | succ l ih =>
    have hstep : advLeft t T hw small l = advLeft t T hw small (l + 1) :=
      advLeft_step t T hw small l ⟨by omega, h l (by omega)⟩
    rw [ih (by omega) (fun i hi => h i (by omega)), hstep]

theorem advRight_from_zero (t : List ℚ) (T hw small : ℚ) (r : ℕ) (hr : r ≤ t.length)
    (h : ∀ i, i < r → t.getD i 0 - T - small ≤ hw) :
    advRight t T hw small 0 = advRight t T hw small r := by
  induction r with
  | zero => rfl
  | succ r ih =>
    have hstep : advRight t T hw small r = advRight t T hw small (r + 1) :=
      advRight_step t T hw small r ⟨by omega, h r (by omega)⟩
    rw [ih (by omega) (fun i hi => h i (by omega)), hstep]

/-- For a sorted time column, the canonical left pointer marks exactly the
first row inside the left window boundary. -/
theorem advLeft_zero_char (t : List ℚ) (T hw small : ℚ) (hs : TimesSorted t)
    (i : ℕ) (hi : i < t.length) :
    advLeft t T hw small 0 ≤ i ↔ T - t.getD i 0 - small ≤ hw := by
  constructor
  · intro hle
    have hstop := advLeft_stop t T hw small 0 (by omega)
    have hmono := hs (advLeft t T hw small 0) i hle hi
    push_neg at hstop
    linarith
  · intro hcond
    by_contra hlt
    push_neg at hlt
    have := (advLeft_cond t T hw small 0 i (by omega) hlt).2
    linarith

/-- For a sorted time column, the canonical right pointer marks exactly the
first row outside the right window boundary. -/
theorem advRight_zero_char (t : List ℚ) (T hw small : ℚ) (hs : TimesSorted t)
    (i : ℕ) (hi : i < t.length) :
    i < advRight t T hw small 0 ↔ t.getD i 0 - T - small ≤ hw := by
  constructor
  · intro hlt
    exact (advRight_cond t T hw small 0 i (by omega) hlt).2
  · intro hcond
    by_contra hge
    push_neg at hge
    have hstop := advRight_stop t T hw small 0
      (by have := hge.trans_lt hi; omega)
    push_neg at hstop
    have hmono := hs (advRight t T hw small 0) i hge hi
    linarith

/-- Generalised correctness of the two-pointer run: starting from any state
that is consistent with all remaining output points, the window after each
point is the brute-force window of that point (fixed half-width, sorted
times, points processed in non-decreasing time order). -/
theorem trackAux (t : List ℚ) (hw small : ℚ) (hs : TimesSorted t) :
    ∀ (l : List (ℚ × ℚ)) (st : ℕ × ℕ),
      List.Pairwise (fun p q : ℚ × ℚ => p.1 ≤ q.1) l →
      (∀ p ∈ l, p.2 = hw) →
      st.1 ≤ t.length → st.2 ≤ t.length →
      (∀ p ∈ l, PriorL t p.1 hw small st.1 ∧ PriorR t p.1 hw small st.2) →
      ∀ pre p post, l = pre ++ p :: post →
        ∀ i, (((pre ++ [p]).foldl (trackStep t small) st).1 ≤ i ∧
               i < ((pre ++ [p]).foldl (trackStep t small) st).2) ↔
             (i < t.length ∧ p.1 - t.getD i 0 - small ≤ hw ∧
              t.getD i 0 - p.1 - small ≤ hw) := by
  intro l
  induction l with
  | nil =>
    intro st hpair hhw hl1 hl2 hinv pre p post heq
    exact absurd heq (by simp)
  | cons q rest ih =>
    intro st hpair hhw hl1 hl2 hinv pre p post heq
    cases pre with
    | nil =>
      simp only [List.nil_append, List.cons.injEq] at heq
      obtain ⟨hq, hrest⟩ := heq
      subst hq
      have hpl : PriorL t q.1 hw small st.1 := (hinv q (by simp)).1
      have hpr : PriorR t q.1 hw small st.2 := (hinv q (by simp)).2
      have hhwp : q.2 = hw := hhw q (by simp)
      simp only [List.nil_append, List.foldl_cons, List.foldl_nil]
      intro i
      unfold trackStep
      rw [hhwp]
      rw [← advLeft_from_zero t q.1 hw small st.1 hl1 hpl,
          ← advRight_from_zero t q.1 hw small st.2 hl2 hpr]
      constructor
      · rintro ⟨hL, hR⟩
        have hilen : i < t.length :=
          lt_of_lt_of_le hR (advRight_le_length t q.1 hw small 0 (by omega))
        exact ⟨hilen, (advLeft_zero_char t q.1 hw small hs i hilen).1 hL,
          (advRight_zero_char t q.1 hw small hs i hilen).1 hR⟩
      · rintro ⟨hilen, hcl, hcr⟩
        exact ⟨(advLeft_zero_char t q.1 hw small hs i hilen).2 hcl,
          (advRight_zero_char t q.1 hw small hs i hilen).2 hcr⟩
    | cons q2 pre2 =>
      simp only [List.cons_append, List.cons.injEq] at heq
      obtain ⟨hq, hrest⟩ := heq
      subst hq
      have hhwq : q.2 = hw := hhw q (by simp)
      have hplq : PriorL t q.1 hw small st.1 := (hinv q (by simp)).1
      have hprq : PriorR t q.1 hw small st.2 := (hinv q (by simp)).2
      have hqle : ∀ p2 ∈ rest, q.1 ≤ p2.1 := by
        intro p2 hp2
        exact (List.pairwise_cons.1 hpair).1 p2 hp2
      have hstep : trackStep t small st q =
          (advLeft t q.1 hw small st.1, advRight t q.1 hw small st.2) := by
        unfold trackStep
        rw [hhwq]
      have hl1n : (trackStep t small st q).1 ≤ t.length := by
        rw [hstep]
        exact advLeft_le_length t q.1 hw small st.1 hl1
      have hl2n : (trackStep t small st q).2 ≤ t.length := by
        rw [hstep]
        exact advRight_le_length t q.1 hw small st.2 hl2
      have hinvn : ∀ p2 ∈ rest, PriorL t p2.1 hw small (trackStep t small st q).1 ∧
          PriorR t p2.1 hw small (trackStep t small st q).2 := by
        intro p2 hp2
        have hT : q.1 ≤ p2.1 := hqle p2 hp2
        constructor
        · intro i hi
          rw [hstep] at hi
          have : hw < q.1 - t.getD i 0 - small := by
            by_cases hil : i < st.1
            · exact hplq i hil
            · exact (advLeft_cond t q.1 hw small st.1 i (by omega) hi).2
          linarith
        · intro i hi
          rw [hstep] at hi
          have : t.getD i 0 - q.1 - small ≤ hw := by
            by_cases hir : i < st.2
            · exact hprq i hir
            · exact (advRight_cond t q.1 hw small st.2 i (by omega) hi).2
          linarith
      have := ih (trackStep t small st q) (List.pairwise_cons.1 hpair).2
        (fun p2 hp2 => hhw p2 (by simp [hp2]))
        hl1n hl2n hinvn pre2 p post hrest
      simpa only [List.cons_append, List.foldl_cons] using this

theorem lackSkipF_ge (F : FInfo) (c bound : ℕ) :
    ∀ fuel r, r ≤ lackSkipF F c bound fuel r := by
  intro fuel
  induction fuel with
  | zero => intro r; exact le_rfl
  | succ fuel ih =>
    intro r
    rw [lackSkipF]
    by_cases hc : (F.val c r).isSome ∧ r < bound
    · rw [if_pos hc]
      have := ih (r + 1)
      omega
    · rw [if_neg hc]

/-- `List.getD` through `range`/`map`, the shape of all record accesses. -/
theorem getD_range_map {α : Type} (f : ℕ → α) (n i : ℕ) (d : α) :
    ((List.range n).map f).getD i d = if i < n then f i else d := by
  rw [List.getD_eq_getElem?_getD, List.getElem?_map]
  by_cases h : i < n
  · rw [if_pos h, List.getElem?_range h]
    rfl
  · rw [if_neg h, List.getElem?_eq_none (by simpa using Nat.le_of_not_lt h)]
    rfl

theorem filterStep_skip (E : Ext) (F : FInfo) (Tarr : List ℚ) (small : ℚ) (k : ℕ)
    (st : (ℕ × ℕ) × RS)
    (h : skipPoint F (stepLR F Tarr small k st).1 (stepLR F Tarr small k st).2) :
    filterStep E F Tarr small k st = ((stepLR F Tarr small k st, st.2), none) := by
  unfold filterStep
  rw [if_pos h]

theorem filterStep_conv (E : Ext) (F : FInfo) (Tarr : List ℚ) (small : ℚ) (k : ℕ)
    (st : (ℕ × ℕ) × RS)
    (h : ¬ skipPoint F (stepLR F Tarr small k st).1 (stepLR F Tarr small k st).2)
    (hpath : ¬ (F.robust = true ∨ 3 < F.filterType)) :
    filterStep E F Tarr small k st =
      ((stepLR F Tarr small k st, st.2),
       if 0 < nGoodOnes F (goodConv F (Tarr.getD k 0) (stepLR F Tarr small k st).1
           (stepLR F Tarr small k st).2
           (good0 F (stepLR F Tarr small k st).1 (stepLR F Tarr small k st).2)) then
         some (convRecord F (Tarr.getD k 0) k (stepLR F Tarr small k st).1
           (stepLR F Tarr small k st).2 st.2
           (goodConv F (Tarr.getD k 0) (stepLR F Tarr small k st).1
             (stepLR F Tarr small k st).2
             (good0 F (stepLR F Tarr small k st).1 (stepLR F Tarr small k st).2)))
       else none) := by
  unfold filterStep
  rw [if_neg h, if_neg hpath]

theorem filterStep_robustConv (E : Ext) (F : FInfo) (Tarr : List ℚ) (small : ℚ)
    (k : ℕ) (st : (ℕ × ℕ) × RS)
    (h : ¬ skipPoint F (stepLR F Tarr small k st).1 (stepLR F Tarr small k st).2)
    (hrb : F.robust = true) (hty : ¬ 3 < F.filterType) :
    filterStep E F Tarr small k st =
      ((stepLR F Tarr small k st,
        robustUpdate E F (stepLR F Tarr small k st).1 (stepLR F Tarr small k st).2
          (goodQ F (Tarr.getD k 0) (stepLR F Tarr small k st).1
            (stepLR F Tarr small k st).2) st.2),
       if 0 < nGoodOnes F (goodConv F (Tarr.getD k 0) (stepLR F Tarr small k st).1
           (stepLR F Tarr small k st).2
           (goodQ F (Tarr.getD k 0) (stepLR F Tarr small k st).1
             (stepLR F Tarr small k st).2)) then
         some (convRecord F (Tarr.getD k 0) k (stepLR F Tarr small k st).1
           (stepLR F Tarr small k st).2
           (robustUpdate E F (stepLR F Tarr small k st).1 (stepLR F Tarr small k st).2
             (goodQ F (Tarr.getD k 0) (stepLR F Tarr small k st).1
               (stepLR F Tarr small k st).2) st.2)
           (goodConv F (Tarr.getD k 0) (stepLR F Tarr small k st).1
             (stepLR F Tarr small k st).2
             (goodQ F (Tarr.getD k 0) (stepLR F Tarr small k st).1
               (stepLR F Tarr small k st).2)))
       else none) := by
  unfold filterStep
  rw [if_neg h, if_pos (Or.inl hrb), if_neg hty]

theorem filterStep_stat (E : Ext) (F : FInfo) (Tarr : List ℚ) (small : ℚ)
    (k : ℕ) (st : (ℕ × ℕ) × RS)
    (h : ¬ skipPoint F (stepLR F Tarr small k st).1 (stepLR F Tarr small k st).2)
    (hty : 3 < F.filterType) :
    filterStep E F Tarr small k st =
      ((stepLR F Tarr small k st,
        robustUpdate E F (stepLR F Tarr small k st).1 (stepLR F Tarr small k st).2
          (goodQ F (Tarr.getD k 0) (stepLR F Tarr small k st).1
            (stepLR F Tarr small k st).2) st.2),
       if 0 < nGoodOnes F (goodQ F (Tarr.getD k 0) (stepLR F Tarr small k st).1
           (stepLR F Tarr small k st).2) then
         some (statRecord F (Tarr.getD k 0) k
           (goodQ F (Tarr.getD k 0) (stepLR F Tarr small k st).1
             (stepLR F Tarr small k st).2)
           (robustUpdate E F (stepLR F Tarr small k st).1 (stepLR F Tarr small k st).2
             (goodQ F (Tarr.getD k 0) (stepLR F Tarr small k st).1
               (stepLR F Tarr small k st).2) st.2))
       else none) := by
  unfold filterStep
  rw [if_neg h, if_pos (Or.inr hty), if_pos hty]

/-- C2 (amended): for every series and every sequence of output points, the
window tracker's `left`/`right` pointers never decrease from one output point
to the next; and when the half-width is fixed (non-variable filtering), the
series' time column is sorted and the output times are processed in
non-decreasing order, the half-open range `[left, right)` after each output
point equals the brute-force window of that point. -/
theorem C2_two_pointer_window :
    (∀ (t : List ℚ) (small : ℚ) (st : ℕ × ℕ) (p : ℚ × ℚ),
        st.1 ≤ (trackStep t small st p).1 ∧ st.2 ≤ (trackStep t small st p).2) ∧
    (∀ (t : List ℚ) (hw small : ℚ), TimesSorted t →
      ∀ (seq : List (ℚ × ℚ)), List.Pairwise (fun p q : ℚ × ℚ => p.1 ≤ q.1) seq →
        (∀ p ∈ seq, p.2 = hw) →
        ∀ pre p post, seq = pre ++ p :: post →
          ∀ i, (((pre ++ [p]).foldl (trackStep t small) (0, 0)).1 ≤ i ∧
                 i < ((pre ++ [p]).foldl (trackStep t small) (0, 0)).2) ↔
               bruteWin t small hw p.1 i) := by
  constructor
  · intro t small st p
    exact ⟨advLeft_ge t p.1 p.2 small st.1, advRight_ge t p.1 p.2 small st.2⟩
  · intro t hw small hs seq hpair hhw pre p post heq i
    have := trackAux t hw small hs seq (0, 0) hpair hhw (by omega) (by omega)
      (by
        intro p2 hp2
        constructor
        · intro j hj
          omega
        · intro j hj
          omega) pre p post heq i
    unfold bruteWin
    exact this

/-- C2 counterexample: with a variable half-width sequence (half-width 100 at
the first output point, 1 at the second) over the times 0, 10, the tracker
window after the second point still contains row 1, but the brute-force
window of that point does not — the claim's unconditional window equality
fails in variable-width mode. -/
theorem C2_variable_width_counterexample :
    ((trackRun [0, 10] eps8 [(0, 100), (1, 1)]).1 ≤ 1 ∧
      1 < (trackRun [0, 10] eps8 [(0, 100), (1, 1)]).2) ∧
    ¬ bruteWin [0, 10] eps8 1 1 1 := by
  with_unfolding_all decide

/-- Witness for C2: both parts instantiated on concrete data. -/
theorem C2_two_pointer_window_witness :
    ((3, 4).1 ≤ (trackStep [0, 10] eps8 (3, 4) (1, 1)).1 ∧
      (3, 4).2 ≤ (trackStep [0, 10] eps8 (3, 4) (1, 1)).2) ∧
    (∀ i, ((([((6 : ℚ), 2)]).foldl (trackStep [0, 3] eps8) (0, 0)).1 ≤ i ∧
            i < (([((6 : ℚ), 2)]).foldl (trackStep [0, 3] eps8) (0, 0)).2) ↔
          bruteWin [0, 3] eps8 2 6 i) := by
  constructor
  · exact C2_two_pointer_window.1 [0, 10] eps8 (3, 4) (1, 1)
  · have hs : TimesSorted [0, 3] := by
      intro i j hij hj
      simp only [List.length_cons, List.length_nil] at hj
      interval_cases j
      · interval_cases i
        · exact le_rfl
      · interval_cases i
        · with_unfolding_all decide
        · exact le_rfl
    exact C2_two_pointer_window.2 [0, 3] 2 eps8 hs [((6 : ℚ), 2)]
      (by simp) (by simp) [] ((6 : ℚ), 2) [] rfl

/-- C4: the spec's lack-of-data gate rejects the all-present window at times
0, 1, 2, 10, 11 for lack width 5 (gap 8 between 2 and 10).  The code's
`filter1d_lack_check` (filter1d.c:548) advances `last_row`/`this_row` while
the sample is NOT NaN, so on an all-NaN-free window it inspects no gap at all
and clears the column — the code contradicts the module's own `-L`
documentation ("If input data has a gap exceeding width then no output will
be given at that point"). -/
theorem C4_lack_gate_bug :
    specLackFail [0, 1, 2, 10, 11] 5 = true ∧
    lackCheck infoLack 1 0 5 = false ∧
    good0 infoLack 0 5 1 = true ∧
    specLackFail [0, 1, 2, 10, 11] 9 = false ∧
    lackCheck { infoLack with lackWidth := 9 } 1 0 5 = false := by
  with_unfolding_all decide

/-- C7: if the window `[left, right)` for an output time is empty, or the
lack check is enabled and `filter_width / (right - left) > lack_width`, the
output time is skipped entirely: the step emits no record and leaves the
estimator state untouched (no estimator or gate work), and the loop resumes
at the next output time from the advanced window pointers. -/
theorem C7_skip_empty_or_lack :
    ∀ (E : Ext) (F : FInfo) (Tarr : List ℚ) (small : ℚ) (k : ℕ)
      (st : (ℕ × ℕ) × RS) (ks : List ℕ),
      skipPoint F (stepLR F Tarr small k st).1 (stepLR F Tarr small k st).2 →
      (filterStep E F Tarr small k st).2 = none ∧
      (filterStep E F Tarr small k st).1.2 = st.2 ∧
      runLoop E F Tarr small (k :: ks) st =
        runLoop E F Tarr small ks (stepLR F Tarr small k st, st.2) := by
  intro E F Tarr small k st ks h
  have hstep := filterStep_skip E F Tarr small k st h
  refine ⟨by rw [hstep], by rw [hstep], ?_⟩
  show (filterStep E F Tarr small k st).2.toList ++ _ = _
  rw [hstep]
  rfl

/-- Witness for C7: a lack-flagged window (filter width 10 over a 2-row
window with lack width 1) is skipped, estimator state untouched. -/
theorem C7_skip_empty_or_lack_witness :
    (filterStep ext0 { infoLack with filterWidth := 10, halfWidth := 5, lackWidth := 1 }
        [1] ((1 : ℚ) / 100000000) 0 ((0, 0), rs0 infoLack)).2 = none ∧
    (filterStep ext0 { infoLack with filterWidth := 10, halfWidth := 5, lackWidth := 1 }
        [1] ((1 : ℚ) / 100000000) 0 ((0, 0), rs0 infoLack)).1.2 = rs0 infoLack ∧
    runLoop ext0 { infoLack with filterWidth := 10, halfWidth := 5, lackWidth := 1 }
        [1] ((1 : ℚ) / 100000000) [0] ((0, 0), rs0 infoLack) =
      runLoop ext0 { infoLack with filterWidth := 10, halfWidth := 5, lackWidth := 1 }
        [1] ((1 : ℚ) / 100000000) []
        (stepLR { infoLack with filterWidth := 10, halfWidth := 5, lackWidth := 1 }
          [1] ((1 : ℚ) / 100000000) 0 ((0, 0), rs0 infoLack), rs0 infoLack) := by
  exact C7_skip_empty_or_lack ext0
    { infoLack with filterWidth := 10, halfWidth := 5, lackWidth := 1 }
    [1] ((1 : ℚ) / 100000000) 0 ((0, 0), rs0 infoLack) []
    (by with_unfolding_all decide)

/-- C8: an output time at which no non-time column passes its gates emits no
record at all (the record is dropped rather than emitted all-NaN); when a
record is emitted, at least one non-time column passed, the time cell holds
the output time, and every failing non-time column is emitted as NaN within
the record. -/
theorem C8_record_suppression :
    ∀ (E : Ext) (F : FInfo) (Tarr : List ℚ) (small : ℚ) (k : ℕ)
      (st : (ℕ × ℕ) × RS),
      (nGoodOnes F (stepGood E F Tarr small k st) = 0 ↔
        ∀ c, c < F.nCols → c ≠ F.tcol → stepGood E F Tarr small k st c = false) ∧
      (nGoodOnes F (stepGood E F Tarr small k st) = 0 →
        (filterStep E F Tarr small k st).2 = none) ∧
      (∀ rec, (filterStep E F Tarr small k st).2 = some rec →
        0 < nGoodOnes F (stepGood E F Tarr small k st) ∧
        (F.tcol < F.nCols → rec.getD F.tcol none = some (Tarr.getD k 0)) ∧
        ∀ c, c < F.nCols → c ≠ F.tcol → stepGood E F Tarr small k st c = false →
          rec.getD c none = none) := by
  intro E F Tarr small k st
  refine ⟨?_, ?_, ?_⟩
  · unfold nGoodOnes
    rw [List.countP_eq_zero]
    constructor
    · intro h c hc hct
      have := h c (List.mem_range.2 hc)
      simp only [Bool.and_eq_true, decide_eq_true_eq, not_and] at this
      exact Bool.eq_false_iff.2 fun hg => (by simp [hct, hg] at this)
    · intro h c hc
      simp only [Bool.and_eq_true, decide_eq_true_eq, not_and]
      intro hct hg
      rw [h c (List.mem_range.1 hc) hct] at hg
      exact Bool.false_ne_true hg
  all_goals
    by_cases hskip : skipPoint F (stepLR F Tarr small k st).1 (stepLR F Tarr small k st).2
  · intro h
    rw [filterStep_skip E F Tarr small k st hskip]
  · intro h0
    by_cases hpath : F.robust = true ∨ 3 < F.filterType
    · by_cases hty : 3 < F.filterType
      · rw [filterStep_stat E F Tarr small k st hskip hty]
        have : stepGood E F Tarr small k st =
            goodQ F (Tarr.getD k 0) (stepLR F Tarr small k st).1
              (stepLR F Tarr small k st).2 := by
          unfold stepGood
          rw [if_pos hpath, if_pos hty]
        rw [this] at h0
        simp only [h0, Nat.lt_irrefl, if_false]
      · have hrb : F.robust = true := hpath.resolve_right hty
        rw [filterStep_robustConv E F Tarr small k st hskip hrb hty]
        have : stepGood E F Tarr small k st =
            goodConv F (Tarr.getD k 0) (stepLR F Tarr small k st).1
              (stepLR F Tarr small k st).2
              (goodQ F (Tarr.getD k 0) (stepLR F Tarr small k st).1
                (stepLR F Tarr small k st).2) := by
          unfold stepGood
          rw [if_pos hpath, if_neg hty]
        rw [this] at h0
        simp only [h0, Nat.lt_irrefl, if_false]
    · rw [filterStep_conv E F Tarr small k st hskip hpath]
      have hty : ¬ 3 < F.filterType := fun hc => hpath (Or.inr hc)
      have : stepGood E F Tarr small k st =
          goodConv F (Tarr.getD k 0) (stepLR F Tarr small k st).1
            (stepLR F Tarr small k st).2
            (good0 F (stepLR F Tarr small k st).1 (stepLR F Tarr small k st).2) := by
        unfold stepGood
        rw [if_neg hpath]
      rw [this] at h0
      simp only [h0, Nat.lt_irrefl, if_false]
  · intro rec hrec
    rw [filterStep_skip E F Tarr small k st hskip] at hrec
    exact absurd hrec (by simp)
  · intro rec hrec
    by_cases hpath : F.robust = true ∨ 3 < F.filterType
    · by_cases hty : 3 < F.filterType
      · rw [filterStep_stat E F Tarr small k st hskip hty] at hrec
        have hsg : stepGood E F Tarr small k st =
            goodQ F (Tarr.getD k 0) (stepLR F Tarr small k st).1
              (stepLR F Tarr small k st).2 := by
          unfold stepGood
          rw [if_pos hpath, if_pos hty]
        simp only at hrec
        split at hrec
        · next hpos =>
          obtain rfl : statRecord F (Tarr.getD k 0) k
              (goodQ F (Tarr.getD k 0) (stepLR F Tarr small k st).1
                (stepLR F Tarr small k st).2)
              (robustUpdate E F (stepLR F Tarr small k st).1
                (stepLR F Tarr small k st).2
                (goodQ F (Tarr.getD k 0) (stepLR F Tarr small k st).1
                  (stepLR F Tarr small k st).2) st.2) = rec := by
            exact Option.some.inj hrec
          refine ⟨by rw [hsg]; exact hpos, ?_, ?_⟩
          · intro htc
            unfold statRecord
            rw [getD_range_map, if_pos htc, if_pos rfl]
          · intro c hc hct hgf
            rw [hsg] at hgf
            unfold statRecord
            rw [getD_range_map, if_pos hc, if_neg hct, hgf]
            simp
        · exact absurd hrec (by simp)
      · have hrb : F.robust = true := hpath.resolve_right hty
        rw [filterStep_robustConv E F Tarr small k st hskip hrb hty] at hrec
        have hsg : stepGood E F Tarr small k st =
            goodConv F (Tarr.getD k 0) (stepLR F Tarr small k st).1
              (stepLR F Tarr small k st).2
              (goodQ F (Tarr.getD k 0) (stepLR F Tarr small k st).1
                (stepLR F Tarr small k st).2) := by
          unfold stepGood
          rw [if_pos hpath, if_neg hty]
        simp only at hrec
        split at hrec
        · next hpos =>
          obtain rfl := Option.some.inj hrec
          refine ⟨by rw [hsg]; exact hpos, ?_, ?_⟩
          · intro htc
            unfold convRecord
            rw [getD_range_map, if_pos htc, if_pos rfl]
          · intro c hc hct hgf
            rw [hsg] at hgf
            unfold convRecord
            rw [getD_range_map, if_pos hc, if_neg hct, hgf]
            simp
        · exact absurd hrec (by simp)
    · rw [filterStep_conv E F Tarr small k st hskip hpath] at hrec
      have hsg : stepGood E F Tarr small k st =
          goodConv F (Tarr.getD k 0) (stepLR F Tarr small k st).1
            (stepLR F Tarr small k st).2
            (good0 F (stepLR F Tarr small k st).1 (stepLR F Tarr small k st).2) := by
        unfold stepGood
        rw [if_neg hpath]
      simp only at hrec
      split at hrec
      · next hpos =>
        obtain rfl := Option.some.inj hrec
        refine ⟨by rw [hsg]; exact hpos, ?_, ?_⟩
        · intro htc
          unfold convRecord
          rw [getD_range_map, if_pos htc, if_pos rfl]
        · intro c hc hct hgf
          rw [hsg] at hgf
          unfold convRecord
          rw [getD_range_map, if_pos hc, if_neg hct, hgf]
          simp
      · exact absurd hrec (by simp)

/-- Witness for C8: the step at output time 2 over the three-column series
emits the record [2, 3, NaN] — the all-NaN column fails and is NaN-filled
while the record as a whole survives. -/
theorem C8_record_suppression_witness :
    (filterStep ext0 infoNanCol (outTimes infoNanCol) (runSmall infoNanCol) 2
        ((0, 0), rs0 infoNanCol)).2 = some [some 2, some 3, none] ∧
    0 < nGoodOnes infoNanCol
      (stepGood ext0 infoNanCol (outTimes infoNanCol) (runSmall infoNanCol) 2
        ((0, 0), rs0 infoNanCol)) ∧
    ([some 2, some 3, some 99] : List Val).getD 2 none = some 99 ∧
    ([some 2, some 3, none] : List Val).getD 2 none = none := by
  have h : (filterStep ext0 infoNanCol (outTimes infoNanCol) (runSmall infoNanCol) 2
      ((0, 0), rs0 infoNanCol)).2 = some [some 2, some 3, none] := by
    with_unfolding_all decide
  have H := (C8_record_suppression ext0 infoNanCol (outTimes infoNanCol)
    (runSmall infoNanCol) 2 ((0, 0), rs0 infoNanCol)).2.2 [some 2, some 3, none] h
  exact ⟨h, H.1, rfl, H.2.2 2 (by with_unfolding_all decide)
    (by with_unfolding_all decide) (by with_unfolding_all decide) ▸ rfl⟩

theorem symFail_iff (sym : ℚ) (nl nr : ℕ) :
    symFail sym nl nr = true ↔
      sym < |(nl : ℚ) - (nr : ℚ)| / ((nl : ℚ) + (nr : ℚ)) := by
  unfold symFail
  rw [decide_eq_true_eq]
  have hd : (((if nr ≤ nl then nl - nr else nr - nl : ℕ)) : ℚ) =
      |(nl : ℚ) - (nr : ℚ)| := by
    by_cases h : nr ≤ nl
    · rw [if_pos h, Nat.cast_sub h,
        abs_of_nonneg (sub_nonneg.2 (Nat.cast_le.2 h))]
    · rw [if_neg h, Nat.cast_sub (Nat.le_of_not_le h),
        abs_of_nonpos (sub_nonpos.2 (Nat.cast_le.2 (Nat.le_of_not_le h))), neg_sub]
  rw [hd]

theorem countP_split {α : Type} (l : List α) (p q r : α → Bool)
    (h : ∀ i ∈ l, (r i = true ↔ (p i = true ∨ q i = true)) ∧
      ¬ (p i = true ∧ q i = true)) :
    l.countP p + l.countP q = l.countP r := by
  induction l with
  | nil => simp
  | cons x l ih =>
    have hx := h x (by simp)
    have hl := ih (fun i hi => h i (by simp [hi]))
    rw [List.countP_cons, List.countP_cons, List.countP_cons]
    cases hpx : p x <;> cases hqx : q x <;> cases hrx : r x <;>
      simp_all <;> omega

/-- C5: with the asymmetry check enabled, the gate counts the window's
non-NaN samples of a column with time strictly before and strictly after the
output time (a sample exactly at the output time is counted in neither), and
fails the column if and only if `|n_left - n_right| / (n_left + n_right)`
exceeds the symmetry coefficient — both for the robust/order-statistic pass
(filter1d.c:688-697) and for the plain-convolution pass (filter1d.c:766-775,
over the rows with in-range coefficient index); in particular counts 3/0 are
rejected at coefficient 1/2 and pass at coefficient 1. -/
theorem C5_asymmetry_gate :
    (∀ (F : FInfo) (T : ℚ) (l r c : ℕ),
      good0 F l r c = true → F.checkAsym = true →
      (goodA F T l r c = false ↔
        F.symCoeff < |((rsNL F T l r c : ℚ)) - (rsNR F T l r c : ℚ)| /
          ((rsNL F T l r c : ℚ) + (rsNR F T l r c : ℚ)))) ∧
    (∀ (F : FInfo) (T : ℚ) (l r c : ℕ),
      rsNL F T l r c + rsNR F T l r c =
        (winRows l r).countP
          (fun i => (F.val c i).isSome && decide (F.time i ≠ T))) ∧
    (∀ (F : FInfo) (T : ℚ) (l r : ℕ) (g : ℕ → Bool) (c : ℕ),
      F.robust = false → F.checkAsym = true →
      g c = true → convN F T l r c ≠ 0 →
      (F.checkQ && decide (convW F T l r c / (convN F T l r c : ℚ) < F.qFactor))
        = false →
      (goodConv F T l r g c = false ↔
        F.symCoeff < |((convNL F T l r c : ℚ)) - (convNR F T l r c : ℚ)| /
          ((convNL F T l r c : ℚ) + (convNR F T l r c : ℚ)))) ∧
    (symFail (1 / 2) 3 0 = true ∧ symFail 1 3 0 = false) := by
  refine ⟨?_, ?_, ?_, by with_unfolding_all decide⟩
  · intro F T l r c hg ha
    unfold goodA
    rw [hg, ha]
    simp only [Bool.true_and, Bool.not_eq_false']
    exact symFail_iff F.symCoeff (rsNL F T l r c) (rsNR F T l r c)
  · intro F T l r c
    refine countP_split (winRows l r) _ _ _ ?_
    intro i hi
    constructor
    · constructor
      · intro h
        simp only [Bool.and_eq_true, decide_eq_true_eq] at h ⊢
        rcases lt_trichotomy (F.time i) T with hlt | heq | hgt
        · exact Or.inl ⟨h.1, hlt⟩
        · exact absurd heq h.2
        · exact Or.inr ⟨h.1, hgt⟩
      · intro h
        simp only [Bool.and_eq_true, decide_eq_true_eq] at h ⊢
        rcases h with ⟨hs, hlt⟩ | ⟨hs, hgt⟩
        · exact ⟨hs, ne_of_lt hlt⟩
        · exact ⟨hs, ne_of_gt hgt⟩
    · intro ⟨h1, h2⟩
      simp only [Bool.and_eq_true, decide_eq_true_eq] at h1 h2
      exact absurd h2.2 (lt_asymm h1.2)
  · intro F T l r g c hrb ha hg hn hq
    unfold goodConv
    rw [hg, hrb, ha, hq, decide_eq_true hn]
    simp only [Bool.true_and, Bool.not_false, Bool.and_true, Bool.not_true,
      Bool.not_eq_false']
    exact symFail_iff F.symCoeff (convNL F T l r c) (convNR F T l r c)

/-- Witness for C5: over the window of rows 0-2 at output time 5 the counts
are 3 left / 0 right; the robust-pass gate rejects at coefficient 1/2 and
passes at coefficient 1. -/
theorem C5_asymmetry_gate_witness :
    (goodA infoAsym 5 0 3 1 = false ↔
      (1 : ℚ) / 2 < |((rsNL infoAsym 5 0 3 1 : ℚ)) - (rsNR infoAsym 5 0 3 1 : ℚ)| /
        ((rsNL infoAsym 5 0 3 1 : ℚ) + (rsNR infoAsym 5 0 3 1 : ℚ))) ∧
    rsNL infoAsym 5 0 3 1 = 3 ∧ rsNR infoAsym 5 0 3 1 = 0 ∧
    goodA infoAsym 5 0 3 1 = false ∧
    goodA { infoAsym with symCoeff := 1 } 5 0 3 1 = true := by
  refine ⟨?_, by with_unfolding_all decide, by with_unfolding_all decide,
    by with_unfolding_all decide, by with_unfolding_all decide⟩
  exact C5_asymmetry_gate.1 infoAsym 5 0 3 1 (by with_unfolding_all decide)
    (by with_unfolding_all decide)

theorem sum_map_div (l : List ℚ) (s : ℚ) :
    (l.map (fun x => x / s)).sum = l.sum / s := by
  induction l with
  | nil => simp
  | cons x l ih => simp [ih, add_div]

theorem setUp_custom_fields (F : FInfo) (h : F.filterType = 3) :
    (setUp F).fWt =
      (if 1 < F.coeffs.sum then F.coeffs.map (fun x => x / F.coeffs.sum)
       else F.coeffs) ∧
    (setUp F).fOperator = decide (|F.coeffs.sum| < eps8) := by
  refine ⟨?_, ?_⟩ <;>
    · simp only [setUp, h, eq_self_iff_true, if_true]
      split <;> (try split) <;> rfl

/-- The value emitted for a passing non-time column by either convolution
branch (plain or robust), lowpass mode: `data_sum` for operator filters,
`data_sum / wt_sum` otherwise, computed with the estimator state the step
ends in (filter1d.c:788). -/
theorem convEmission_value (E : Ext) (F : FInfo) (Tarr : List ℚ) (small : ℚ)
    (k : ℕ) (st : (ℕ × ℕ) × RS) (rec : List Val) (c : ℕ) (v : ℚ)
    (hhp : F.highpass = false) (hty : ¬ 3 < F.filterType)
    (hrec : (filterStep E F Tarr small k st).2 = some rec)
    (hc : c < F.nCols) (hct : c ≠ F.tcol)
    (hv : rec.getD c none = some v) :
    ∃ g : ℕ → Bool,
      goodConv F (Tarr.getD k 0) (stepLR F Tarr small k st).1
        (stepLR F Tarr small k st).2 g c = true ∧
      v = (if F.fOperator = true then
            convD F (Tarr.getD k 0) (stepLR F Tarr small k st).1
              (stepLR F Tarr small k st).2 ((filterStep E F Tarr small k st).1.2) c
          else
            convD F (Tarr.getD k 0) (stepLR F Tarr small k st).1
              (stepLR F Tarr small k st).2 ((filterStep E F Tarr small k st).1.2) c /
            convW F (Tarr.getD k 0) (stepLR F Tarr small k st).1
              (stepLR F Tarr small k st).2 c) := by
  by_cases hskip : skipPoint F (stepLR F Tarr small k st).1 (stepLR F Tarr small k st).2
  · rw [filterStep_skip E F Tarr small k st hskip] at hrec
    exact absurd hrec (by simp)
  by_cases hrb : F.robust = true
  · have hstep := filterStep_robustConv E F Tarr small k st hskip hrb hty
    rw [hstep] at hrec
    simp only at hrec
    split at hrec
    · next hpos =>
      obtain rfl := Option.some.inj hrec
      rw [hstep]
      refine ⟨goodQ F (Tarr.getD k 0) (stepLR F Tarr small k st).1
        (stepLR F Tarr small k st).2, ?_, ?_⟩
      · unfold convRecord at hv
        rw [getD_range_map, if_pos hc, if_neg hct] at hv
        by_cases hgc : goodConv F (Tarr.getD k 0) (stepLR F Tarr small k st).1
            (stepLR F Tarr small k st).2
            (goodQ F (Tarr.getD k 0) (stepLR F Tarr small k st).1
              (stepLR F Tarr small k st).2) c = true
        · exact hgc
        · rw [Bool.eq_false_iff.2 hgc] at hv
          simp at hv
      · unfold convRecord at hv
        rw [getD_range_map, if_pos hc, if_neg hct] at hv
        split at hv
        · unfold convOut at hv
          rw [hhp] at hv
          simp only [Bool.false_eq_true, if_false] at hv
          exact (Option.some.inj hv).symm
        · simp at hv
    · exact absurd hrec (by simp)
  · have hpath : ¬ (F.robust = true ∨ 3 < F.filterType) := by
      intro hor
      exact hor.elim hrb hty
    have hstep := filterStep_conv E F Tarr small k st hskip hpath
    rw [hstep] at hrec
    simp only at hrec
    split at hrec
    · next hpos =>
      obtain rfl := Option.some.inj hrec
      rw [hstep]
      refine ⟨good0 F (stepLR F Tarr small k st).1 (stepLR F Tarr small k st).2,
        ?_, ?_⟩
      · unfold convRecord at hv
        rw [getD_range_map, if_pos hc, if_neg hct] at hv
        by_cases hgc : goodConv F (Tarr.getD k 0) (stepLR F Tarr small k st).1
            (stepLR F Tarr small k st).2
            (good0 F (stepLR F Tarr small k st).1 (stepLR F Tarr small k st).2) c
            = true
        · exact hgc
        · rw [Bool.eq_false_iff.2 hgc] at hv
          simp at hv
      · unfold convRecord at hv
        rw [getD_range_map, if_pos hc, if_neg hct] at hv
        split at hv
        · unfold convOut at hv
          rw [hhp] at hv
          simp only [Bool.false_eq_true, if_false] at hv
          exact (Option.some.inj hv).symm
        · simp at hv
    · exact absurd hrec (by simp)

/-- C3: custom filter coefficients are rescaled to sum exactly 1 when their
sum exceeds 1; a numerically zero sum flags the filter as an operator and
skips normalization; the emitted value of an operator filter is the raw
weighted sum with no division by the weight sum, while for coefficients
summing to exactly 1 the emitted value is the weighted mean
`weighted_sum / weight_sum`. -/
theorem C3_custom_normalization :
    (∀ F : FInfo, F.filterType = 3 → 1 < F.coeffs.sum →
      (setUp F).fWt.sum = 1 ∧ (setUp F).fOperator = false) ∧
    (∀ F : FInfo, F.filterType = 3 → |F.coeffs.sum| < eps8 →
      (setUp F).fOperator = true ∧ (setUp F).fWt = F.coeffs) ∧
    (∀ F : FInfo, F.filterType = 3 → F.coeffs.sum = 1 →
      (setUp F).fOperator = false ∧ (setUp F).fWt = F.coeffs) ∧
    (∀ (E : Ext) (F : FInfo) (Tarr : List ℚ) (small : ℚ) (k : ℕ)
        (st : (ℕ × ℕ) × RS) (rec : List Val) (c : ℕ) (v : ℚ),
      F.robust = false → F.highpass = false → ¬ 3 < F.filterType →
      F.fOperator = true →
      (filterStep E F Tarr small k st).2 = some rec →
      c < F.nCols → c ≠ F.tcol → rec.getD c none = some v →
      v = ((contribRows F (Tarr.getD k 0) (stepLR F Tarr small k st).1
             (stepLR F Tarr small k st).2 c).map
           (fun i => rowWt F (Tarr.getD k 0) i * (F.val c i).getD 0)).sum) ∧
    (∀ (E : Ext) (F : FInfo) (Tarr : List ℚ) (small : ℚ) (k : ℕ)
        (st : (ℕ × ℕ) × RS) (rec : List Val) (c : ℕ) (v : ℚ),
      F.robust = false → F.highpass = false → ¬ 3 < F.filterType →
      F.fOperator = false →
      (filterStep E F Tarr small k st).2 = some rec →
      c < F.nCols → c ≠ F.tcol → rec.getD c none = some v →
      v = ((contribRows F (Tarr.getD k 0) (stepLR F Tarr small k st).1
             (stepLR F Tarr small k st).2 c).map
           (fun i => rowWt F (Tarr.getD k 0) i * (F.val c i).getD 0)).sum /
          ((contribRows F (Tarr.getD k 0) (stepLR F Tarr small k st).1
             (stepLR F Tarr small k st).2 c).map
           (rowWt F (Tarr.getD k 0))).sum) := by
  have hconvD : ∀ (F : FInfo) (T : ℚ) (L R : ℕ) (rs : RS) (c : ℕ),
      F.robust = false →
      convD F T L R rs c =
        ((contribRows F T L R c).map
          (fun i => rowWt F T i * (F.val c i).getD 0)).sum := by
    intro F T L R rs c hrb
    unfold convD convVal
    rw [hrb]
    simp only [Bool.false_eq_true, if_false]
  refine ⟨?_, ?_, ?_, ?_, ?_⟩
  · intro F h hsum
    obtain ⟨hw, hop⟩ := setUp_custom_fields F h
    constructor
    · rw [hw, if_pos hsum, sum_map_div, div_self (by linarith)]
    · rw [hop]
      simp only [decide_eq_false_iff_not, not_lt]
      calc eps8 ≤ 1 := by unfold eps8; norm_num
        _ ≤ |F.coeffs.sum| := le_trans (le_of_lt hsum) (le_abs_self _)
  · intro F h hsum
    obtain ⟨hw, hop⟩ := setUp_custom_fields F h
    constructor
    · rw [hop, decide_eq_true hsum]
    · rw [hw, if_neg]
      intro hgt
      have : (1 : ℚ) < eps8 := lt_of_lt_of_le (lt_of_lt_of_le hgt (le_abs_self _))
        (le_of_lt hsum)
      unfold eps8 at this
      norm_num at this
  · intro F h hsum
    obtain ⟨hw, hop⟩ := setUp_custom_fields F h
    constructor
    · rw [hop, hsum]
      simp only [decide_eq_false_iff_not, not_lt]
      unfold eps8
      rw [abs_one]
      norm_num
    · rw [hw, hsum, if_neg (lt_irrefl 1)]
  · intro E F Tarr small k st rec c v hrb hhp hty hop hrec hc hct hv
    obtain ⟨g, hg, hval⟩ :=
      convEmission_value E F Tarr small k st rec c v hhp hty hrec hc hct hv
    rw [hval, if_pos hop, hconvD F _ _ _ _ c hrb]
  · intro E F Tarr small k st rec c v hrb hhp hty hop hrec hc hct hv
    obtain ⟨g, hg, hval⟩ :=
      convEmission_value E F Tarr small k st rec c v hhp hty hrec hc hct hv
    rw [hval, if_neg (by rw [hop]; exact Bool.false_ne_true),
      hconvD F _ _ _ _ c hrb]
    rfl

/-- Witness for C3: concrete instances of every part — coefficients [2,2]
normalize to sum 1, [1,-1] flags an operator and stays verbatim, [1/2,1/2]
is left alone; and the operator filter emits the raw weighted sum -1 at
output time 2 even though its window weight sum is 0. -/
theorem C3_custom_normalization_witness :
    ((setUp { infoDefault with filterType := 3, coeffs := [2, 2] }).fWt.sum = 1 ∧
     (setUp { infoDefault with filterType := 3, coeffs := [2, 2] }).fOperator
       = false) ∧
    ((setUp { infoDefault with filterType := 3, coeffs := [1, -1] }).fOperator
       = true ∧
     (setUp { infoDefault with filterType := 3, coeffs := [1, -1] }).fWt
       = [1, -1]) ∧
    ((setUp { infoDefault with filterType := 3, coeffs := [1 / 2, 1 / 2]
        }).fOperator = false ∧
     (setUp { infoDefault with filterType := 3, coeffs := [1 / 2, 1 / 2] }).fWt
       = [1 / 2, 1 / 2]) ∧
    ((filterStep ext0 infoCustomOp (outTimes infoCustomOp) (runSmall infoCustomOp)
        2 ((0, 0), rs0 infoCustomOp)).2 = some [some 2, some (-1)] ∧
     ((-1 : ℚ) = ((contribRows infoCustomOp 2
         (stepLR infoCustomOp (outTimes infoCustomOp) (runSmall infoCustomOp) 2
           ((0, 0), rs0 infoCustomOp)).1
         (stepLR infoCustomOp (outTimes infoCustomOp) (runSmall infoCustomOp) 2
           ((0, 0), rs0 infoCustomOp)).2 1).map
        (fun i => rowWt infoCustomOp 2 i * (infoCustomOp.val 1 i).getD 0)).sum) ∧
     ((contribRows infoCustomOp 2
         (stepLR infoCustomOp (outTimes infoCustomOp) (runSmall infoCustomOp) 2
           ((0, 0), rs0 infoCustomOp)).1
         (stepLR infoCustomOp (outTimes infoCustomOp) (runSmall infoCustomOp) 2
           ((0, 0), rs0 infoCustomOp)).2 1).map
        (rowWt infoCustomOp 2)).sum = 0) := by
  have hrec : (filterStep ext0 infoCustomOp (outTimes infoCustomOp)
      (runSmall infoCustomOp) 2 ((0, 0), rs0 infoCustomOp)).2 =
      some [some 2, some (-1)] := by
    with_unfolding_all decide
  refine ⟨⟨(C3_custom_normalization.1 _ rfl (by norm_num)).1,
           (C3_custom_normalization.1 _ rfl (by norm_num)).2⟩,
          ⟨(C3_custom_normalization.2.1 _ rfl (by with_unfolding_all decide)).1,
           (C3_custom_normalization.2.1 _ rfl (by with_unfolding_all decide)).2⟩,
          ⟨(C3_custom_normalization.2.2.1 _ rfl (by with_unfolding_all decide)).1,
           (C3_custom_normalization.2.2.1 _ rfl (by with_unfolding_all decide)).2⟩,
          hrec, ?_, by with_unfolding_all decide⟩
  exact C3_custom_normalization.2.2.2.1 ext0 infoCustomOp (outTimes infoCustomOp)
    (runSmall infoCustomOp) 2 ((0, 0), rs0 infoCustomOp) [some 2, some (-1)]
    1 (-1) rfl rfl (by with_unfolding_all decide) rfl hrec
    (by with_unfolding_all decide) (by with_unfolding_all decide) rfl

theorem getD_set_self {α : Type} (l : List α) (i : ℕ) (x d : α) (h : i < l.length) :
    (l.set i x).getD i d = x := by
  rw [List.getD_eq_getElem?_getD, List.getElem?_set_self h]
  rfl

theorem getD_set_ne {α : Type} (l : List α) (i j : ℕ) (x d : α) (h : i ≠ j) :
    (l.set i x).getD j d = l.getD j d := by
  rw [List.getD_eq_getElem?_getD, List.getElem?_set_ne h,
    ← List.getD_eq_getElem?_getD]

theorem getRobust_len (E : Ext) (F : FInfo) (j : ℕ) (w : List ℚ) (b : Bool)
    (rs : RS) (h : rsLen F rs) : rsLen F (getRobust E F j w b rs) := by
  obtain ⟨h1, h2, h3, h4⟩ := h
  unfold getRobust
  split_ifs <;> refine ⟨?_, ?_, ?_, ?_⟩ <;>
    simp only [List.length_set, h1, h2, h3, h4]

theorem getRobust_getD_ne (E : Ext) (F : FInfo) (j : ℕ) (w : List ℚ) (b : Bool)
    (rs : RS) (c : ℕ) (h : j ≠ c) :
    (getRobust E F j w b rs).lastLoc.getD c 0 = rs.lastLoc.getD c 0 ∧
    (getRobust E F j w b rs).thisLoc.getD c 0 = rs.thisLoc.getD c 0 ∧
    (getRobust E F j w b rs).lastScl.getD c 0 = rs.lastScl.getD c 0 ∧
    (getRobust E F j w b rs).thisScl.getD c 0 = rs.thisScl.getD c 0 := by
  unfold getRobust
  split_ifs <;> refine ⟨?_, ?_, ?_, ?_⟩ <;>
    simp only [getD_set_ne _ _ _ _ _ h]

/-- The robust-estimate fold touches only the columns it processes. -/
theorem robustFold_preserve (E : Ext) (F : FInfo) (L R : ℕ) (g : ℕ → Bool)
    (c : ℕ) :
    ∀ (l : List ℕ) (rs : RS), c ∉ l →
      ((l.foldl (fun acc j => if g j then
          getRobust E F j (workVals F L R j) F.robust acc else acc) rs).lastLoc.getD
          c 0 = rs.lastLoc.getD c 0 ∧
       (l.foldl (fun acc j => if g j then
          getRobust E F j (workVals F L R j) F.robust acc else acc) rs).thisLoc.getD
          c 0 = rs.thisLoc.getD c 0 ∧
       (l.foldl (fun acc j => if g j then
          getRobust E F j (workVals F L R j) F.robust acc else acc) rs).lastScl.getD
          c 0 = rs.lastScl.getD c 0 ∧
       (l.foldl (fun acc j => if g j then
          getRobust E F j (workVals F L R j) F.robust acc else acc) rs).thisScl.getD
          c 0 = rs.thisScl.getD c 0) := by
  intro l
  induction l with
  | nil => intro rs _; exact ⟨rfl, rfl, rfl, rfl⟩
  | cons j l ih =>
    intro rs hc
    have hjc : j ≠ c := fun he => hc (he ▸ List.mem_cons_self j l)
    have hcl : c ∉ l := fun hm => hc (List.mem_cons_of_mem j hm)
    rw [List.foldl_cons]
    obtain ⟨p1, p2, p3, p4⟩ := ih (if g j then
      getRobust E F j (workVals F L R j) F.robust rs else rs) hcl
    refine ⟨p1.trans ?_, p2.trans ?_, p3.trans ?_, p4.trans ?_⟩ <;>
      · split
        · next hg =>
          obtain ⟨q1, q2, q3, q4⟩ :=
            getRobust_getD_ne E F j (workVals F L R j) F.robust rs c hjc
          first | exact q1 | exact q2 | exact q3 | exact q4
        · rfl

theorem robustFold_len (E : Ext) (F : FInfo) (L R : ℕ) (g : ℕ → Bool) :
    ∀ (l : List ℕ) (rs : RS), rsLen F rs →
      rsLen F (l.foldl (fun acc j => if g j then
        getRobust E F j (workVals F L R j) F.robust acc else acc) rs) := by
  intro l
  induction l with
  | nil => intro rs h; exact h
  | cons j l ih =>
    intro rs h
    rw [List.foldl_cons]
    refine ih _ ?_
    split
    · exact getRobust_len E F j (workVals F L R j) F.robust rs h
    · exact h

/-- What `filter1d_get_robust_estimates` leaves in the per-column state for a
processed convolution column: the warm-started median location, and (robust
mode) the warm-started median absolute deviation scale, both also stored as
the warm start for the next output point. -/
theorem robustUpdate_getD (E : Ext) (F : FInfo) (L R : ℕ) (g : ℕ → Bool)
    (rs : RS) (c : ℕ) (hlen : rsLen F rs) (hc : c < F.nCols) (hg : g c = true)
    (hty : ¬ 3 < F.filterType) (hrb : F.robust = true) :
    (robustUpdate E F L R g rs).thisLoc.getD c 0 =
      E.med (workVals F L R c) (F.minLoc.getD c 0) (F.maxLoc.getD c 0)
        (rs.lastLoc.getD c 0) ∧
    (robustUpdate E F L R g rs).lastLoc.getD c 0 =
      E.med (workVals F L R c) (F.minLoc.getD c 0) (F.maxLoc.getD c 0)
        (rs.lastLoc.getD c 0) ∧
    (robustUpdate E F L R g rs).thisScl.getD c 0 =
      E.med ((workVals F L R c).map (fun x =>
          |x - E.med (workVals F L R c) (F.minLoc.getD c 0) (F.maxLoc.getD c 0)
            (rs.lastLoc.getD c 0)|))
        (F.minScl.getD c 0) (F.maxScl.getD c 0) (rs.lastScl.getD c 0) ∧
    (robustUpdate E F L R g rs).lastScl.getD c 0 =
      E.med ((workVals F L R c).map (fun x =>
          |x - E.med (workVals F L R c) (F.minLoc.getD c 0) (F.maxLoc.getD c 0)
            (rs.lastLoc.getD c 0)|))
        (F.minScl.getD c 0) (F.maxScl.getD c 0) (rs.lastScl.getD c 0) := by
  have key : ∀ (n : ℕ) (rs : RS), rsLen F rs → c < n → n ≤ F.nCols →
      ((List.range n).foldl (fun acc j => if g j then
          getRobust E F j (workVals F L R j) F.robust acc else acc) rs).thisLoc.getD
          c 0 =
        E.med (workVals F L R c) (F.minLoc.getD c 0) (F.maxLoc.getD c 0)
          (rs.lastLoc.getD c 0) ∧
      ((List.range n).foldl (fun acc j => if g j then
          getRobust E F j (workVals F L R j) F.robust acc else acc) rs).lastLoc.getD
          c 0 =
        E.med (workVals F L R c) (F.minLoc.getD c 0) (F.maxLoc.getD c 0)
          (rs.lastLoc.getD c 0) ∧
      ((List.range n).foldl (fun acc j => if g j then
          getRobust E F j (workVals F L R j) F.robust acc else acc) rs).thisScl.getD
          c 0 =
        E.med ((workVals F L R c).map (fun x =>
            |x - E.med (workVals F L R c) (F.minLoc.getD c 0) (F.maxLoc.getD c 0)
              (rs.lastLoc.getD c 0)|)) (F.minScl.getD c 0) (F.maxScl.getD c 0)
          (rs.lastScl.getD c 0) ∧
      ((List.range n).foldl (fun acc j => if g j then
          getRobust E F j (workVals F L R j) F.robust acc else acc) rs).lastScl.getD
          c 0 =
        E.med ((workVals F L R c).map (fun x =>
            |x - E.med (workVals F L R c) (F.minLoc.getD c 0) (F.maxLoc.getD c 0)
              (rs.lastLoc.getD c 0)|)) (F.minScl.getD c 0) (F.maxScl.getD c 0)
          (rs.lastScl.getD c 0) := by
    intro n
    induction n with
    | zero => intro rs _ hc0 _; omega
    | succ n ih =>
      intro rs hl hcn hnc
      rcases Nat.lt_or_ge c n with hlt | hge
      · -- c handled inside the first n columns; column n ≠ c preserves it
        rw [List.range_succ, List.foldl_append, List.foldl_cons, List.foldl_nil]
        have hcne : n ≠ c := by omega
        obtain ⟨p1, p2, p3, p4⟩ := ih rs hl hlt (by omega)
        set mid := (List.range n).foldl (fun acc j => if g j then
          getRobust E F j (workVals F L R j) F.robust acc else acc) rs with hmid
        constructor
        · rw [← p1]
          split
          · exact (getRobust_getD_ne E F n (workVals F L R n) F.robust mid c hcne).2.1
          · rfl
        constructor
        · rw [← p2]
          split
          · exact (getRobust_getD_ne E F n (workVals F L R n) F.robust mid c hcne).1
          · rfl
        constructor
        · rw [← p3]
          split
          · exact (getRobust_getD_ne E F n (workVals F L R n) F.robust mid c hcne).2.2.2
          · rfl
        · rw [← p4]
          split
          · exact (getRobust_getD_ne E F n (workVals F L R n) F.robust mid c hcne).2.2.1
          · rfl
      · -- c = n: the range-n prefix never touches c, then c is processed
        have hceq : c = n := by omega
        subst hceq
        rw [List.range_succ, List.foldl_append, List.foldl_cons, List.foldl_nil]
        set mid := (List.range c).foldl (fun acc j => if g j then
          getRobust E F j (workVals F L R j) F.robust acc else acc) rs with hmid
        have hpres := robustFold_preserve E F L R g c (List.range c)
          rs (by simp)
        have hmlen : rsLen F mid := robustFold_len E F L R g (List.range c) rs hl
        rw [hg]
        simp only [if_true]
        unfold getRobust
        rw [hrb]
        have hloc : (if 5 < F.filterType then E.extremeEst (workVals F L R c)
            else if F.filterType = 5 then
              E.modeEst (workVals F L R c) ((workVals F L R c).length / 2)
            else E.med (workVals F L R c) (F.minLoc.getD c 0) (F.maxLoc.getD c 0)
              (mid.lastLoc.getD c 0)) =
            E.med (workVals F L R c) (F.minLoc.getD c 0) (F.maxLoc.getD c 0)
              (rs.lastLoc.getD c 0) := by
          rw [if_neg (by omega), if_neg (by omega), hpres.1]
        simp only [if_true]
        rw [hloc]
        refine ⟨?_, ?_, ?_, ?_⟩
        · exact getD_set_self _ c _ 0 (by rw [hmlen.2.1]; omega)
        · exact getD_set_self _ c _ 0 (by rw [hmlen.1]; omega)
        · rw [hpres.2.2.1]
          exact getD_set_self _ c _ 0 (by rw [hmlen.2.2.2]; omega)
        · rw [hpres.2.2.1]
          exact getD_set_self _ c _ 0 (by rw [hmlen.2.2.1]; omega)
  exact key F.nCols rs hlen hc le_rfl

/-- C9: for a robust convolution filter, a processed output point and a
passing column, the engine first computes the warm-started median location
and then the scale (median absolute deviation about that location, with its
own warm-started bounds), stores both as the warm start for the next output
point, and in the weighted sum replaces every sample farther than
`2.5 * scale` from the location by the location (`clipVal`), using samples
within `2.5 * scale` unchanged; the emitted value is that clipped weighted
sum divided by the weight sum (for a non-operator filter). -/
theorem C9_robust_convolution :
    ∀ (E : Ext) (F : FInfo) (Tarr : List ℚ) (small : ℚ) (k : ℕ)
      (st : (ℕ × ℕ) × RS) (c : ℕ),
      F.robust = true → ¬ 3 < F.filterType →
      ¬ skipPoint F (stepLR F Tarr small k st).1 (stepLR F Tarr small k st).2 →
      rsLen F st.2 → c < F.nCols →
      goodQ F (Tarr.getD k 0) (stepLR F Tarr small k st).1
        (stepLR F Tarr small k st).2 c = true →
      ((filterStep E F Tarr small k st).1.2.thisLoc.getD c 0 =
          warmLoc E F st.2 (stepLR F Tarr small k st).1
            (stepLR F Tarr small k st).2 c ∧
        (filterStep E F Tarr small k st).1.2.lastLoc.getD c 0 =
          warmLoc E F st.2 (stepLR F Tarr small k st).1
            (stepLR F Tarr small k st).2 c ∧
        (filterStep E F Tarr small k st).1.2.thisScl.getD c 0 =
          warmScl E F st.2 (stepLR F Tarr small k st).1
            (stepLR F Tarr small k st).2 c ∧
        (filterStep E F Tarr small k st).1.2.lastScl.getD c 0 =
          warmScl E F st.2 (stepLR F Tarr small k st).1
            (stepLR F Tarr small k st).2 c) ∧
      convD F (Tarr.getD k 0) (stepLR F Tarr small k st).1
          (stepLR F Tarr small k st).2 (filterStep E F Tarr small k st).1.2 c =
        ((contribRows F (Tarr.getD k 0) (stepLR F Tarr small k st).1
            (stepLR F Tarr small k st).2 c).map
          (fun i => rowWt F (Tarr.getD k 0) i *
            clipVal (warmLoc E F st.2 (stepLR F Tarr small k st).1
                (stepLR F Tarr small k st).2 c)
              (warmScl E F st.2 (stepLR F Tarr small k st).1
                (stepLR F Tarr small k st).2 c)
              ((F.val c i).getD 0))).sum ∧
      (∀ (rec : List Val) (v : ℚ), F.highpass = false → c ≠ F.tcol →
        (filterStep E F Tarr small k st).2 = some rec →
        rec.getD c none = some v →
        v = (if F.fOperator = true then
              ((contribRows F (Tarr.getD k 0) (stepLR F Tarr small k st).1
                  (stepLR F Tarr small k st).2 c).map
                (fun i => rowWt F (Tarr.getD k 0) i *
                  clipVal (warmLoc E F st.2 (stepLR F Tarr small k st).1
                      (stepLR F Tarr small k st).2 c)
                    (warmScl E F st.2 (stepLR F Tarr small k st).1
                      (stepLR F Tarr small k st).2 c)
                    ((F.val c i).getD 0))).sum
            else
              ((contribRows F (Tarr.getD k 0) (stepLR F Tarr small k st).1
                  (stepLR F Tarr small k st).2 c).map
                (fun i => rowWt F (Tarr.getD k 0) i *
                  clipVal (warmLoc E F st.2 (stepLR F Tarr small k st).1
                      (stepLR F Tarr small k st).2 c)
                    (warmScl E F st.2 (stepLR F Tarr small k st).1
                      (stepLR F Tarr small k st).2 c)
                    ((F.val c i).getD 0))).sum /
              convW F (Tarr.getD k 0) (stepLR F Tarr small k st).1
                (stepLR F Tarr small k st).2 c)) := by
  intro E F Tarr small k st c hrb hty hskip hlen hc hg
  have hstep := filterStep_robustConv E F Tarr small k st hskip hrb hty
  have hrs2 : (filterStep E F Tarr small k st).1.2 =
      robustUpdate E F (stepLR F Tarr small k st).1 (stepLR F Tarr small k st).2
        (goodQ F (Tarr.getD k 0) (stepLR F Tarr small k st).1
          (stepLR F Tarr small k st).2) st.2 := by
    rw [hstep]
  obtain ⟨p1, p2, p3, p4⟩ := robustUpdate_getD E F (stepLR F Tarr small k st).1
    (stepLR F Tarr small k st).2
    (goodQ F (Tarr.getD k 0) (stepLR F Tarr small k st).1
      (stepLR F Tarr small k st).2) st.2 c hlen hc hg hty hrb
  have hstate : (filterStep E F Tarr small k st).1.2.thisLoc.getD c 0 =
        warmLoc E F st.2 (stepLR F Tarr small k st).1
          (stepLR F Tarr small k st).2 c ∧
      (filterStep E F Tarr small k st).1.2.lastLoc.getD c 0 =
        warmLoc E F st.2 (stepLR F Tarr small k st).1
          (stepLR F Tarr small k st).2 c ∧
      (filterStep E F Tarr small k st).1.2.thisScl.getD c 0 =
        warmScl E F st.2 (stepLR F Tarr small k st).1
          (stepLR F Tarr small k st).2 c ∧
      (filterStep E F Tarr small k st).1.2.lastScl.getD c 0 =
        warmScl E F st.2 (stepLR F Tarr small k st).1
          (stepLR F Tarr small k st).2 c := by
    rw [hrs2]
    exact ⟨p1, p2, p3, p4⟩
  have hsum : convD F (Tarr.getD k 0) (stepLR F Tarr small k st).1
      (stepLR F Tarr small k st).2 (filterStep E F Tarr small k st).1.2 c =
      ((contribRows F (Tarr.getD k 0) (stepLR F Tarr small k st).1
          (stepLR F Tarr small k st).2 c).map
        (fun i => rowWt F (Tarr.getD k 0) i *
          clipVal (warmLoc E F st.2 (stepLR F Tarr small k st).1
              (stepLR F Tarr small k st).2 c)
            (warmScl E F st.2 (stepLR F Tarr small k st).1
              (stepLR F Tarr small k st).2 c)
            ((F.val c i).getD 0))).sum := by
    unfold convD convVal
    rw [hrb]
    simp only [if_true, hstate.1, hstate.2.2.1]
  refine ⟨hstate, hsum, ?_⟩
  intro rec v hhp hct hrec hv
  obtain ⟨g2, hg2, hval⟩ :=
    convEmission_value E F Tarr small k st rec c v hhp hty hrec hc hct hv
  rw [hval, hsum]

/-- Witness for C9: at output time 2 the window samples of column 1 are
2, 3, 10; with location 3 and scale 1/2 the outlier 10 (deviation 7 >
2.5 * 1/2) is replaced by the location, so the emitted value is
(2 + 3 + 3)/3 = 8/3. -/
theorem C9_robust_convolution_witness :
    (filterStep ext0 infoRobust (outTimes infoRobust) (runSmall infoRobust) 2
        ((0, 0), rs0 infoRobust)).1.2.thisLoc.getD 1 0 =
      warmLoc ext0 infoRobust (rs0 infoRobust)
        (stepLR infoRobust (outTimes infoRobust) (runSmall infoRobust) 2
          ((0, 0), rs0 infoRobust)).1
        (stepLR infoRobust (outTimes infoRobust) (runSmall infoRobust) 2
          ((0, 0), rs0 infoRobust)).2 1 ∧
    (filterStep ext0 infoRobust (outTimes infoRobust) (runSmall infoRobust) 2
        ((0, 0), rs0 infoRobust)).1.2.thisScl.getD 1 0 =
      warmScl ext0 infoRobust (rs0 infoRobust)
        (stepLR infoRobust (outTimes infoRobust) (runSmall infoRobust) 2
          ((0, 0), rs0 infoRobust)).1
        (stepLR infoRobust (outTimes infoRobust) (runSmall infoRobust) 2
          ((0, 0), rs0 infoRobust)).2 1 ∧
    warmLoc ext0 infoRobust (rs0 infoRobust)
      (stepLR infoRobust (outTimes infoRobust) (runSmall infoRobust) 2
        ((0, 0), rs0 infoRobust)).1
      (stepLR infoRobust (outTimes infoRobust) (runSmall infoRobust) 2
        ((0, 0), rs0 infoRobust)).2 1 = 3 ∧
    warmScl ext0 infoRobust (rs0 infoRobust)
      (stepLR infoRobust (outTimes infoRobust) (runSmall infoRobust) 2
        ((0, 0), rs0 infoRobust)).1
      (stepLR infoRobust (outTimes infoRobust) (runSmall infoRobust) 2
        ((0, 0), rs0 infoRobust)).2 1 = 1 / 2 ∧
    (filterStep ext0 infoRobust (outTimes infoRobust) (runSmall infoRobust) 2
        ((0, 0), rs0 infoRobust)).2 = some [some 2, some (8 / 3)] := by
  have H := C9_robust_convolution ext0 infoRobust (outTimes infoRobust)
    (runSmall infoRobust) 2 ((0, 0), rs0 infoRobust) 1 rfl
    (by with_unfolding_all decide) (by with_unfolding_all decide)
    (by with_unfolding_all decide) (by with_unfolding_all decide)
    (by with_unfolding_all decide)
  exact ⟨H.1.1, H.1.2.2.1, by with_unfolding_all decide,
    by with_unfolding_all decide, by with_unfolding_all decide⟩

/-- C6 (amended): in native-time output mode the output-time array is the
input time column, so output index `k` is the native row whose time matches
the output time, and for every passing column the emitted highpass value is
the nominal input sample `data[c][k]` at that row minus the computed lowpass
value (`data_sum` or `data_sum/wt_sum` for convolution filters, the robust
location estimate for order-statistic filters). -/
theorem C6_highpass_native :
    (∀ F : FInfo, F.outAtTime = false →
      outTimes F = F.times ∧
      ∀ k, k < F.nRows → (outTimes F).getD k 0 = F.time k) ∧
    (∀ (E : Ext) (F : FInfo) (Tarr : List ℚ) (small : ℚ) (k : ℕ)
        (st : (ℕ × ℕ) × RS) (rec : List Val) (c : ℕ) (v : ℚ),
      F.highpass = true → ¬ 3 < F.filterType →
      (filterStep E F Tarr small k st).2 = some rec →
      c < F.nCols → c ≠ F.tcol → rec.getD c none = some v →
      ∃ w, F.val c k = some w ∧
        v = w - (if F.fOperator = true then
            convD F (Tarr.getD k 0) (stepLR F Tarr small k st).1
              (stepLR F Tarr small k st).2 (filterStep E F Tarr small k st).1.2 c
          else
            convD F (Tarr.getD k 0) (stepLR F Tarr small k st).1
              (stepLR F Tarr small k st).2
              (filterStep E F Tarr small k st).1.2 c /
            convW F (Tarr.getD k 0) (stepLR F Tarr small k st).1
              (stepLR F Tarr small k st).2 c)) ∧
    (∀ (E : Ext) (F : FInfo) (Tarr : List ℚ) (small : ℚ) (k : ℕ)
        (st : (ℕ × ℕ) × RS) (rec : List Val) (c : ℕ) (v : ℚ),
      F.highpass = true → 3 < F.filterType →
      (filterStep E F Tarr small k st).2 = some rec →
      c < F.nCols → c ≠ F.tcol → rec.getD c none = some v →
      ∃ w, F.val c k = some w ∧
        v = w - (filterStep E F Tarr small k st).1.2.thisLoc.getD c 0) := by
  refine ⟨?_, ?_, ?_⟩
  · intro F hout
    have h1 : outTimes F = F.times := by
      unfold outTimes
      rw [hout]
      simp
    refine ⟨h1, ?_⟩
    intro k hk
    rw [h1]
    unfold FInfo.times
    rw [getD_range_map, if_pos hk]
  · intro E F Tarr small k st rec c v hhp hty hrec hc hct hv
    by_cases hskip : skipPoint F (stepLR F Tarr small k st).1
        (stepLR F Tarr small k st).2
    · rw [filterStep_skip E F Tarr small k st hskip] at hrec
      exact absurd hrec (by simp)
    by_cases hrb : F.robust = true
    · have hstep := filterStep_robustConv E F Tarr small k st hskip hrb hty
      rw [hstep] at hrec
      simp only at hrec
      split at hrec
      · next hpos =>
        obtain rfl := Option.some.inj hrec
        rw [hstep]
        unfold convRecord at hv
        rw [getD_range_map, if_pos hc, if_neg hct] at hv
        split at hv
        · unfold convOut at hv
          rw [hhp] at hv
          simp only [eq_self_iff_true, if_true] at hv
          obtain ⟨w, hw, hfw⟩ := Option.map_eq_some'.1 hv
          exact ⟨w, hw, hfw.symm⟩
        · simp at hv
      · exact absurd hrec (by simp)
    · have hpath : ¬ (F.robust = true ∨ 3 < F.filterType) := by
        intro hor
        exact hor.elim hrb hty
      have hstep := filterStep_conv E F Tarr small k st hskip hpath
      rw [hstep] at hrec
      simp only at hrec
      split at hrec
      · next hpos =>
        obtain rfl := Option.some.inj hrec
        rw [hstep]
        unfold convRecord at hv
        rw [getD_range_map, if_pos hc, if_neg hct] at hv
        split at hv
        · unfold convOut at hv
          rw [hhp] at hv
          simp only [eq_self_iff_true, if_true] at hv
          obtain ⟨w, hw, hfw⟩ := Option.map_eq_some'.1 hv
          exact ⟨w, hw, hfw.symm⟩
        · simp at hv
      · exact absurd hrec (by simp)
  · intro E F Tarr small k st rec c v hhp hty hrec hc hct hv
    by_cases hskip : skipPoint F (stepLR F Tarr small k st).1
        (stepLR F Tarr small k st).2
    · rw [filterStep_skip E F Tarr small k st hskip] at hrec
      exact absurd hrec (by simp)
    have hstep := filterStep_stat E F Tarr small k st hskip hty
    rw [hstep] at hrec
    simp only at hrec
    split at hrec
    · next hpos =>
      obtain rfl := Option.some.inj hrec
      rw [hstep]
      unfold statRecord at hv
      rw [getD_range_map, if_pos hc, if_neg hct] at hv
      split at hv
      · try rw [hhp] at hv
        try simp only [eq_self_iff_true, if_true] at hv
        obtain ⟨w, hw, hfw⟩ := Option.map_eq_some'.1 hv
        exact ⟨w, hw, hfw.symm⟩
      · simp at hv
    · exact absurd hrec (by simp)

/-- C6 counterexample: in resampled output mode the highpass subtraction at
filter1d.c:789 indexes the data by the output-point index `k`, not by the
native row whose time matches the output time.  With rows (t,v) = (0,10),
(1,20), (2,30), (3,40), (4,50), boxcar width 2, -T0/4/1 resampling and
include-ends off, the output times are 1, 2, 3; at output time 2 the lowpass
value is 30 and the sample at time 2 is 30, so the claim predicts 0, but the
code subtracts the sample at row k = 1 (value 20) and emits -10. -/
theorem C6_highpass_resampled_counterexample :
    doFilter ext0 (setUp infoHighpass) =
      [[some 1, some (-10)], [some 2, some (-10)], [some 3, some (-10)]] ∧
    (setUp infoHighpass).val 1 2 = some 30 ∧
    ((-10 : ℚ)) ≠ 30 - 30 := by
  refine ⟨by with_unfolding_all decide, by with_unfolding_all decide,
    by norm_num⟩

/-- Witness for C6: in native mode output index 2 stands at time 2, where the
highpass boxcar emits 0, the native sample 3 minus the lowpass mean 3. -/
theorem C6_highpass_native_witness :
    (outTimes infoHpNative = infoHpNative.times ∧
      (outTimes infoHpNative).getD 2 0 = infoHpNative.time 2) ∧
    (∃ w, infoHpNative.val 1 2 = some w ∧
      (0 : ℚ) = w - (if infoHpNative.fOperator = true then
          convD infoHpNative ((outTimes infoHpNative).getD 2 0)
            (stepLR infoHpNative (outTimes infoHpNative)
              (runSmall infoHpNative) 2 ((0, 0), rs0 infoHpNative)).1
            (stepLR infoHpNative (outTimes infoHpNative)
              (runSmall infoHpNative) 2 ((0, 0), rs0 infoHpNative)).2
            (filterStep ext0 infoHpNative (outTimes infoHpNative)
              (runSmall infoHpNative) 2 ((0, 0), rs0 infoHpNative)).1.2 1
        else
          convD infoHpNative ((outTimes infoHpNative).getD 2 0)
            (stepLR infoHpNative (outTimes infoHpNative)
              (runSmall infoHpNative) 2 ((0, 0), rs0 infoHpNative)).1
            (stepLR infoHpNative (outTimes infoHpNative)
              (runSmall infoHpNative) 2 ((0, 0), rs0 infoHpNative)).2
            (filterStep ext0 infoHpNative (outTimes infoHpNative)
              (runSmall infoHpNative) 2 ((0, 0), rs0 infoHpNative)).1.2 1 /
          convW infoHpNative ((outTimes infoHpNative).getD 2 0)
            (stepLR infoHpNative (outTimes infoHpNative)
              (runSmall infoHpNative) 2 ((0, 0), rs0 infoHpNative)).1
            (stepLR infoHpNative (outTimes infoHpNative)
              (runSmall infoHpNative) 2 ((0, 0), rs0 infoHpNative)).2 1)) ∧
    (filterStep ext0 infoHpNative (outTimes infoHpNative)
        (runSmall infoHpNative) 2 ((0, 0), rs0 infoHpNative)).2 =
      some [some 2, some 0] := by
  have hstep : (filterStep ext0 infoHpNative (outTimes infoHpNative)
      (runSmall infoHpNative) 2 ((0, 0), rs0 infoHpNative)).2 =
      some [some 2, some 0] := by
    with_unfolding_all decide
  have h1 := C6_highpass_native.1 infoHpNative rfl
  have h2 := C6_highpass_native.2.1 ext0 infoHpNative (outTimes infoHpNative)
    (runSmall infoHpNative) 2 ((0, 0), rs0 infoHpNative) [some 2, some 0] 1 0
    rfl (by with_unfolding_all decide) hstep (by with_unfolding_all decide)
    (by with_unfolding_all decide) (by with_unfolding_all decide)
  exact ⟨⟨h1.1, h1.2 2 (by with_unfolding_all decide)⟩, h2, hstep⟩

/-- C10: the segment-load loop at filter1d.c:1073-1087 does skip the
decreasing-time check and the copy for a NaN-time row, and raises no error;
but the `for` increment clause `++row, ++F.n_rows` also runs on `continue`,
so the NaN row is still counted in `F.n_rows` and leaves a calloc-zeroed hole
at its index instead of being excluded from the loaded series.  For the
segment rows (0,1), (NaN,2), (1,3) the claim expects 2 loaded rows
(0,1),(1,3); the code produces 3 rows with a (0,0) hole in the middle. -/
theorem C10_nan_time_load_bug :
    loadSegment 0 [[some 0, none, some 1], [some 1, some 2, some 3]] 3 =
      some (3, [[some 0, some 0, some 1], [some 1, some 0, some 3]]) ∧
    (3 : ℕ) ≠ 2 := by
  with_unfolding_all decide

/-- The backward scan for the last native output row never goes up. -/
theorem natLastKAux_le (F : FInfo) : ∀ r, natLastKAux F r ≤ r := by
  intro r
  induction r with
  | zero => exact le_rfl
  | succ r ih =>
    rw [natLastKAux]
    split
    · omega
    · exact le_rfl

/-- Every visited output index is at most the last one. -/
theorem runKs_mem_le (F : FInfo) (j : ℕ) (hj : j ∈ runKs F) : j ≤ runLastK F := by
  unfold runKs at hj
  rw [List.mem_range'_1] at hj
  omega

/-- `lrint` rounds to within a half. -/
theorem lrint_le (x : ℚ) : (lrint x : ℚ) ≤ x + 1 / 2 := by
  unfold lrint
  split
  · next h =>
    split
    · have := Int.floor_le x
      linarith
    · push_cast
      linarith
  · have h2 : (⌊x + 1 / 2⌋ : ℚ) ≤ x + 1 / 2 := Int.floor_le _
    linarith

theorem lrint_ge (x : ℚ) : x - 1 / 2 ≤ (lrint x : ℚ) := by
  unfold lrint
  split
  · next h =>
    split
    · linarith
    · push_cast
      have := Int.floor_le x
      linarith
  · have h2 : x + 1 / 2 - 1 < (⌊x + 1 / 2⌋ : ℚ) := Int.sub_one_lt_floor _
    linarith

theorem lrint_nonneg (x : ℚ) (hx : 0 ≤ x) : 0 ≤ lrint x := by
  unfold lrint
  split
  · split
    · exact Int.floor_nonneg.2 hx
    · have := Int.floor_nonneg.2 hx
      omega
  · exact Int.floor_nonneg.2 (by linarith)

/-- Rounding `1/2 + m` for an integer `m` floors to `m` itself. -/
theorem floor_half_add_int (m : ℤ) : ⌊(1 : ℚ) / 2 + (m : ℚ)⌋ = m := by
  rw [Int.floor_add_int]
  norm_num

/-- Every branch of the main-loop body returns the freshly advanced window. -/
theorem filterStep_lr (E : Ext) (F : FInfo) (Tarr : List ℚ) (small : ℚ) (j : ℕ)
    (st : (ℕ × ℕ) × RS) :
    (filterStep E F Tarr small j st).1.1 = stepLR F Tarr small j st := by
  by_cases h1 : skipPoint F (stepLR F Tarr small j st).1 (stepLR F Tarr small j st).2
  · rw [filterStep_skip E F Tarr small j st h1]
  · by_cases h2 : 3 < F.filterType
    · rw [filterStep_stat E F Tarr small j st h1 h2]
    · by_cases h3 : F.robust = true
      · rw [filterStep_robustConv E F Tarr small j st h1 h3 h2]
      · rw [filterStep_conv E F Tarr small j st h1 (by
          intro hor
          rcases hor with h | h
          · exact h3 h
          · exact h2 h)]

/-- The window component of the threaded loop state is the two-pointer fold
over the processed output points. -/
theorem foldl_filterStep_fst (E : Ext) (F : FInfo) (Tarr : List ℚ) (small : ℚ) :
    ∀ (ks : List ℕ) (st : (ℕ × ℕ) × RS),
      (ks.foldl (fun s j => (filterStep E F Tarr small j s).1) st).1 =
      (ks.map (fun j => (Tarr.getD j 0, F.halfWidth))).foldl
        (trackStep F.times small) st.1 := by
  intro ks
  induction ks with
  | nil => intro st; rfl
  | cons j ks ih =>
    intro st
    rw [List.foldl_cons, List.map_cons, List.foldl_cons, ih]
    congr 1
    rw [filterStep_lr]
    rfl

/-- The main loop over a concatenation splits into two runs with the state
threaded through. -/
theorem runLoop_append (E : Ext) (F : FInfo) (Tarr : List ℚ) (small : ℚ) :
    ∀ (ks1 ks2 : List ℕ) (st : (ℕ × ℕ) × RS),
      runLoop E F Tarr small (ks1 ++ ks2) st =
        runLoop E F Tarr small ks1 st ++
        runLoop E F Tarr small ks2
          (ks1.foldl (fun s j => (filterStep E F Tarr small j s).1) st) := by
  intro ks1
  induction ks1 with
  | nil => intro ks2 st; rfl
  | cons j ks ih =>
    intro ks2 st
    rw [List.cons_append]
    simp only [runLoop]
    rw [ih ks2 (filterStep E F Tarr small j st).1, List.foldl_cons,
      List.append_assoc]

/-- Summing a map that is constantly one counts the list. -/
theorem sum_map_one (f : ℕ → ℚ) : ∀ (lst : List ℕ), (∀ x ∈ lst, f x = 1) →
    (lst.map f).sum = (lst.length : ℚ) := by
  intro lst
  induction lst with
  | nil => intro h; simp
  | cons a l ih =>
    intro h
    rw [List.map_cons, List.sum_cons, h a (by simp),
      ih (fun x hx => h x (by simp [hx])), List.length_cons]
    push_cast
    ring

/-- A filter over a window of rows, re-expressed as a filter over all rows
with the window bounds as guards. -/
theorem filter_range'_split (n l r : ℕ) (q : ℕ → Bool) (hlr : l ≤ r)
    (hrn : r ≤ n) :
    (List.range' l (r - l)).filter q =
    (List.range n).filter (fun i => (decide (l ≤ i) && decide (i < r)) && q i) := by
  have h1 := List.range'_append_1 0 l (r - l)
  have h2 := List.range'_append_1 0 r (n - r)
  rw [Nat.zero_add] at h1 h2
  rw [show r - l + l = r from by omega] at h1
  rw [show n - r + r = n from by omega] at h2
  rw [List.range_eq_range', ← h2, ← h1, List.filter_append, List.filter_append]
  have hA : (List.range' 0 l).filter
      (fun i => (decide (l ≤ i) && decide (i < r)) && q i) = [] := by
    rw [List.filter_eq_nil_iff]
    intro a ha
    rw [List.mem_range'_1] at ha
    simp only [Bool.and_eq_true, decide_eq_true_eq, not_and]
    intro h
    omega
  have hC : (List.range' r (n - r)).filter
      (fun i => (decide (l ≤ i) && decide (i < r)) && q i) = [] := by
    rw [List.filter_eq_nil_iff]
    intro a ha
    rw [List.mem_range'_1] at ha
    simp only [Bool.and_eq_true, decide_eq_true_eq, not_and]
    intro h h'
    omega
  have hB : (List.range' l (r - l)).filter
      (fun i => (decide (l ≤ i) && decide (i < r)) && q i) =
      (List.range' l (r - l)).filter q := by
    apply List.filter_congr
    intro a ha
    rw [List.mem_range'_1] at ha
    rw [decide_eq_true (show l ≤ a by omega), decide_eq_true (show a < r by omega)]
    simp
  rw [hA, hB, hC, List.nil_append, List.append_nil]

/-- `filter1d_set_up_filter` touches only the filter-shape and output-range
fields; everything else of the control structure passes through. -/
theorem setUp_keeps (F : FInfo) :
    (setUp F).data = F.data ∧ (setUp F).nCols = F.nCols ∧
    (setUp F).tcol = F.tcol ∧ (setUp F).nRows = F.nRows ∧
    (setUp F).robust = F.robust ∧ (setUp F).highpass = F.highpass ∧
    (setUp F).filterType = F.filterType ∧ (setUp F).checkLack = F.checkLack ∧
    (setUp F).checkAsym = F.checkAsym ∧ (setUp F).checkQ = F.checkQ ∧
    (setUp F).outAtTime = F.outAtTime := by
  simp only [setUp]
  split <;> split <;> (try split) <;> (try split) <;>
    exact ⟨rfl, rfl, rfl, rfl, rfl, rfl, rfl, rfl, rfl, rfl, rfl⟩

theorem setUp_val (F : FInfo) (c i : ℕ) : (setUp F).val c i = F.val c i := by
  unfold FInfo.val
  rw [(setUp_keeps F).1]

theorem setUp_time (F : FInfo) (i : ℕ) : (setUp F).time i = F.time i := by
  unfold FInfo.time
  rw [(setUp_keeps F).2.2.1, setUp_val]

theorem times_getD (F : FInfo) (i : ℕ) (hi : i < F.nRows) :
    F.times.getD i 0 = F.time i := by
  unfold FInfo.times
  rw [getD_range_map, if_pos hi]

theorem times_length (F : FInfo) : F.times.length = F.nRows := by
  unfold FInfo.times
  rw [List.length_map, List.length_range]

/-- The boxcar branch of `filter1d_set_up_filter` (filter1d.c:489-496): the
estimated sampling interval, half width `W/2`, the rounded half tap count and
the mirrored boxcar coefficient table. -/
theorem setUp_boxcar (F : FInfo) (d hw : ℚ) (hn : ℕ)
    (hft : F.filterType = 0) (heq : F.equidist = true)
    (hd : (F.time (F.nRows - 1) - F.time 0) / ((F.nRows : ℚ) - 1) = d)
    (hhw : F.filterWidth / 2 = hw)
    (hhn : (lrint (hw / d)).toNat = hn) :
    (setUp F).dt = d ∧ (setUp F).halfWidth = hw ∧ (setUp F).halfN = hn ∧
    (setUp F).nFwts = 2 * hn + 1 ∧ (setUp F).fOperator = F.fOperator ∧
    (setUp F).fWt = (List.range (2 * hn + 1)).map (fun j : ℕ =>
      boxcarWeight ((((j : ℤ) - (hn : ℤ)).natAbs : ℚ) * d) hw) := by
  simp only [setUp, hft, heq, eq_self_iff_true, if_true,
    show ((0 : ℕ) = 3) ↔ False from by norm_num,
    show ((0 : ℕ) ≤ 3) ↔ True from by norm_num, if_false]
  split <;> (try split) <;>
    (refine ⟨hd, hhw, ?_, ?_, rfl, ?_⟩ <;> simp only [hd, hhw, hhn])

/-- With a sorted time column and native output times, the window used at
output index `k` of the run is the brute-force window of its output time. -/
theorem runWindow (E : Ext) (G : FInfo)
    (hsort : TimesSorted G.times)
    (hT : outTimes G = G.times)
    (hmem : ∀ j ∈ runKs G, j < G.times.length)
    (pre : List ℕ) (k : ℕ) (post : List ℕ)
    (hsplit : runKs G = pre ++ k :: post) (i : ℕ) :
    ((stepLR G (outTimes G) (runSmall G) k (stateAt E G pre)).1 ≤ i ∧
      i < (stepLR G (outTimes G) (runSmall G) k (stateAt E G pre)).2) ↔
    (i < G.times.length ∧
      (outTimes G).getD k 0 - G.times.getD i 0 - runSmall G ≤ G.halfWidth ∧
      G.times.getD i 0 - (outTimes G).getD k 0 - runSmall G ≤ G.halfWidth) := by
  have hplt : List.Pairwise (· < ·) (runKs G) := by
    unfold runKs
    exact List.pairwise_lt_range' _ _
  have hpts : List.Pairwise (fun p q : ℚ × ℚ => p.1 ≤ q.1)
      ((runKs G).map (fun j => ((outTimes G).getD j 0, G.halfWidth))) := by
    rw [List.pairwise_map]
    refine hplt.imp_of_mem ?_
    intro a b ha hb hab
    rw [hT]
    exact hsort a b (le_of_lt hab) (hmem b hb)
  have htr := trackAux G.times G.halfWidth (runSmall G) hsort
    ((runKs G).map (fun j => ((outTimes G).getD j 0, G.halfWidth))) (0, 0)
    hpts
    (by
      intro p hp
      rw [List.mem_map] at hp
      obtain ⟨j, hj, rfl⟩ := hp
      rfl)
    (Nat.zero_le _) (Nat.zero_le _)
    (by
      intro p hp
      exact ⟨fun i2 hi2 => absurd hi2 (Nat.not_lt_zero i2),
        fun i2 hi2 => absurd hi2 (Nat.not_lt_zero i2)⟩)
    (pre.map (fun j => ((outTimes G).getD j 0, G.halfWidth)))
    ((outTimes G).getD k 0, G.halfWidth)
    (post.map (fun j => ((outTimes G).getD j 0, G.halfWidth)))
    (by rw [hsplit]; simp)
  have h2 := htr i
  rw [List.foldl_append, List.foldl_cons, List.foldl_nil] at h2
  have hfold : (pre.map (fun j => ((outTimes G).getD j 0, G.halfWidth))).foldl
      (trackStep G.times (runSmall G)) (0, 0) = (stateAt E G pre).1 := by
    unfold stateAt
    rw [foldl_filterStep_fst E G (outTimes G) (runSmall G) pre ((0, 0), rs0 G)]
  rw [hfold] at h2
  exact h2

/-- C1 counterexample: for an irregularly sampled series the tap-index
rounding `half_n_f_wts + lrint(floor(0.5 + dt/dt_est))` (filter1d.c:736) maps
in-window rows onto boxcar coefficients of weight 0, so the emitted value is
not the window mean.  Times 0, 1, 7/5, 2, 4 (estimated dt = 1), boxcar width
6/5: at output time 7/5 the samples within 3/5 are rows 1, 2, 3 with values
0, 0, 6 and mean 2, but the code emits 0 because row 3 lands on a
zero-weight tap. -/
theorem C1_irregular_counterexample :
    doFilter ext0 (setUp infoIrregular) =
      [[some 1, some 0], [some (7/5), some 0], [some 2, some 6]] ∧
    specWindowMean infoIrregular (6/5) (7/5) 1 = some 2 ∧
    ((some 0 : Val) ≠ some 2) := by
  refine ⟨?_, ?_, ?_⟩ <;> with_unfolding_all decide

/-- C1 (amended): the end-to-end scenario of the claim holds; and for every
equidistantly sampled series (time column `t0 + i*d`, `d > 0`) filtered by a
boxcar of width `W` whose rounded half tap count stays within the half width
(`round(W/(2d))*d ≤ W/2`, in particular any `W` that is an even multiple of
`d`), with no quality gates and native output times, every emitted record
sits at an output time `T = t0 + k*d` of the run and carries, per data
column, exactly the arithmetic mean of the non-NaN samples whose time lies
within `W/2` of `T` (`NaN` when there is no such sample). -/
theorem C1_boxcar_mean :
    doFilter ext0 (setUp infoScenario) =
      [[some 1, some 2], [some 2, some 3], [some 3, some 4]] ∧
    ∀ (t0 d W : ℚ) (n : ℕ) (F : FInfo),
      0 < d → 2 ≤ n → 0 < W →
      ((lrint (W / (2 * d))).toNat : ℚ) * d ≤ W / 2 →
      F.nRows = n →
      F.data.getD F.tcol [] =
        (List.range n).map (fun i : ℕ => some (t0 + (i : ℚ) * d)) →
      F.filterType = 0 → F.filterWidth = W → F.equidist = true →
      F.robust = false → F.highpass = false → F.fOperator = false →
      F.outAtTime = false →
      F.checkLack = false → F.checkAsym = false → F.checkQ = false →
      ∀ pre k post, runKs (setUp F) = pre ++ k :: post →
        (outTimes (setUp F)).getD k 0 = t0 + (k : ℚ) * d ∧
        doFilter ext0 (setUp F) =
          runLoop ext0 (setUp F) (outTimes (setUp F)) (runSmall (setUp F)) pre
            ((0, 0), rs0 (setUp F)) ++
          ((filterStep ext0 (setUp F) (outTimes (setUp F)) (runSmall (setUp F))
              k (stateAt ext0 (setUp F) pre)).2.toList ++
            runLoop ext0 (setUp F) (outTimes (setUp F)) (runSmall (setUp F))
              post
              (filterStep ext0 (setUp F) (outTimes (setUp F))
                (runSmall (setUp F)) k (stateAt ext0 (setUp F) pre)).1) ∧
        ∀ rec, (filterStep ext0 (setUp F) (outTimes (setUp F))
            (runSmall (setUp F)) k (stateAt ext0 (setUp F) pre)).2 = some rec →
          ∀ c, c < F.nCols → c ≠ F.tcol →
            rec.getD c none = specWindowMean F W (t0 + (k : ℚ) * d) c := by
  constructor
  · with_unfolding_all decide
  intro t0 d W n F hd0 hn2 hW hround hnRows htcol hft hfw heqd hrb hhp hfop
    hout hlack hasym hq pre k post hsplit
  obtain ⟨hKdata, hKnCols, hKtcol, hKnRows, hKrobust, hKhigh, hKtype, hKlack,
    hKasym, hKq, hKout⟩ := setUp_keeps F
  have heps : (0 : ℚ) < d * eps8 := mul_pos hd0 (by norm_num [eps8])
  have htime : ∀ i, i < n → F.time i = t0 + (i : ℚ) * d := by
    intro i hi
    unfold FInfo.time FInfo.val
    rw [htcol, getD_range_map, if_pos hi]
    rfl
  have hcast : ((n : ℚ) - 1) ≠ 0 := by
    have h2 : (2 : ℚ) ≤ (n : ℚ) := by exact_mod_cast hn2
    linarith
  have hdt : (F.time (F.nRows - 1) - F.time 0) / ((F.nRows : ℚ) - 1) = d := by
    rw [hnRows, htime (n - 1) (by omega), htime 0 (by omega)]
    have h1 : ((n - 1 : ℕ) : ℚ) = (n : ℚ) - 1 := by
      rw [Nat.cast_sub (by omega)]
      norm_num
    rw [h1]
    field_simp
  obtain ⟨hGdt, hGhw, hGhn, hGnf, hGfop, hGfwt⟩ :=
    setUp_boxcar F d (W / 2) ((lrint (W / (2 * d))).toNat) hft heqd hdt
      (by rw [hfw]) (by rw [div_div])
  obtain ⟨hnv, hhnv⟩ : ∃ m : ℕ, (lrint (W / (2 * d))).toNat = m := ⟨_, rfl⟩
  rw [hhnv] at hGhn hGnf hGfwt hround
  have hnv_ge : W / (2 * d) - 1 / 2 ≤ (hnv : ℚ) := by
    have h0 : (0 : ℚ) ≤ W / (2 * d) := by positivity
    have h1 := lrint_ge (W / (2 * d))
    have h2 : ((lrint (W / (2 * d))).toNat : ℤ) = lrint (W / (2 * d)) :=
      Int.toNat_of_nonneg (lrint_nonneg _ h0)
    have h3 : ((hnv : ℕ) : ℚ) = ((lrint (W / (2 * d)) : ℤ) : ℚ) := by
      rw [← hhnv]
      exact_mod_cast congrArg (fun z : ℤ => (z : ℚ)) h2
    rw [h3]
    linarith
  have hGnR : (setUp F).nRows = n := by rw [hKnRows, hnRows]
  have hGtime : ∀ i, i < n → (setUp F).time i = t0 + (i : ℚ) * d := by
    intro i hi
    rw [setUp_time]
    exact htime i hi
  have hlen : (setUp F).times.length = n := by rw [times_length, hGnR]
  have hgetD : ∀ i, i < n → (setUp F).times.getD i 0 = t0 + (i : ℚ) * d := by
    intro i hi
    rw [times_getD (setUp F) i (by rw [hGnR]; exact hi), hGtime i hi]
  have hsort : TimesSorted (setUp F).times := by
    intro i j hij hj
    rw [hlen] at hj
    rw [hgetD i (by omega), hgetD j hj]
    have hic : (i : ℚ) ≤ (j : ℚ) := by exact_mod_cast hij
    have := mul_le_mul_of_nonneg_right hic (le_of_lt hd0)
    linarith
  have hTarr : outTimes (setUp F) = (setUp F).times := by
    unfold outTimes
    rw [hKout, hout]
    simp
  have hlastK : runLastK (setUp F) ≤ n - 1 := by
    unfold runLastK natLastK
    rw [hKout, hout, hGnR]
    simp only [Bool.false_eq_true, if_false]
    exact natLastKAux_le (setUp F) (n - 1)
  have hkn : k < n := by
    have hkmem : k ∈ runKs (setUp F) := by rw [hsplit]; simp
    have h1 := runKs_mem_le (setUp F) k hkmem
    omega
  have hmem : ∀ j ∈ runKs (setUp F), j < (setUp F).times.length := by
    intro j hj
    have h1 := runKs_mem_le (setUp F) j hj
    rw [hlen]
    omega
  have hT : (outTimes (setUp F)).getD k 0 = t0 + (k : ℚ) * d := by
    rw [hTarr]
    exact hgetD k hkn
  have hsmall : runSmall (setUp F) = d * eps8 := by
    unfold runSmall
    rw [hTarr, hgetD 1 (by omega), hgetD 0 (by omega)]
    push_cast
    ring
  have hwin := runWindow ext0 (setUp F) hsort hTarr hmem pre k post hsplit
  obtain ⟨L, R, hLReq⟩ : ∃ L R, stepLR (setUp F) (outTimes (setUp F))
      (runSmall (setUp F)) k (stateAt ext0 (setUp F) pre) = (L, R) :=
    ⟨_, _, rfl⟩
  have hwin2 : ∀ i, (L ≤ i ∧ i < R) ↔
      (i < n ∧ |(t0 + (i : ℚ) * d) - (t0 + (k : ℚ) * d)| ≤ W / 2 + d * eps8) := by
    intro i
    constructor
    · intro h
      have h2 := (hwin i).mp (by rw [hLReq]; exact h)
      rw [hlen] at h2
      obtain ⟨hin, ha, hb⟩ := h2
      rw [hT, hgetD i hin, hGhw, hsmall] at ha hb
      refine ⟨hin, ?_⟩
      rw [abs_le]
      constructor <;> linarith
    · rintro ⟨hin, habs⟩
      rw [abs_le] at habs
      have h3 := (hwin i).mpr ⟨by rw [hlen]; exact hin,
        by rw [hT, hgetD i hin, hGhw, hsmall]; linarith [habs.2],
        by rw [hT, hgetD i hin, hGhw, hsmall]; linarith [habs.1]⟩
      rw [hLReq] at h3
      exact h3
  have hkLR : L ≤ k ∧ k < R := by
    refine (hwin2 k).mpr ⟨hkn, ?_⟩
    rw [sub_self, abs_zero]
    positivity
  have hRn : R ≤ n := by
    by_contra hc
    push_neg at hc
    have h4 := (hwin2 n).mp ⟨by omega, hc⟩
    omega
  have hLRle : L ≤ R := by omega
  have hL1 : (stepLR (setUp F) (outTimes (setUp F)) (runSmall (setUp F)) k
      (stateAt ext0 (setUp F) pre)).1 = L := by rw [hLReq]
  have hR1 : (stepLR (setUp F) (outTimes (setUp F)) (runSmall (setUp F)) k
      (stateAt ext0 (setUp F) pre)).2 = R := by rw [hLReq]
  have hskip0 : ¬ skipPoint (setUp F) L R := by
    intro hsp
    rcases hsp with hemp | hlk
    · omega
    · rw [hKlack, hlack] at hlk
      exact absurd hlk.1 (by simp)
  have hskip : ¬ skipPoint (setUp F)
      (stepLR (setUp F) (outTimes (setUp F)) (runSmall (setUp F)) k
        (stateAt ext0 (setUp F) pre)).1
      (stepLR (setUp F) (outTimes (setUp F)) (runSmall (setUp F)) k
        (stateAt ext0 (setUp F) pre)).2 := by
    rw [hL1, hR1]
    exact hskip0
  have hpath : ¬ ((setUp F).robust = true ∨ 3 < (setUp F).filterType) := by
    rw [hKrobust, hrb, hKtype, hft]
    rintro (h | h)
    · exact absurd h (by simp)
    · omega
  have hstep := filterStep_conv ext0 (setUp F) (outTimes (setUp F))
    (runSmall (setUp F)) k (stateAt ext0 (setUp F) pre) hskip hpath
  refine ⟨hT, ?_, ?_⟩
  · unfold doFilter
    rw [hsplit, runLoop_append]
    congr 1
  · intro rec hrec c hc hct
    rw [hstep] at hrec
    simp only at hrec
    split at hrec
    · next hpos =>
      obtain rfl := Option.some.inj hrec
      unfold convRecord
      rw [getD_range_map, hKnCols, if_pos hc, hKtcol, if_neg hct]
      rw [hL1, hR1, hT]
      have hidx : ∀ i, i < n → tapIdx (setUp F) (t0 + (k : ℚ) * d) i =
          (hnv : ℤ) + ((k : ℤ) - (i : ℤ)) := by
        intro i hi
        unfold tapIdx
        rw [hGhn, hGdt, hGtime i hi]
        have hq2 : (t0 + (k : ℚ) * d - (t0 + (i : ℚ) * d)) / d =
            (((k : ℤ) - (i : ℤ) : ℤ) : ℚ) := by
          push_cast
          field_simp
          ring
        rw [hq2, floor_half_add_int]
      have habs : ∀ i, i < n → |F.time i - (t0 + (k : ℚ) * d)| =
          ((((k : ℤ) - (i : ℤ)).natAbs : ℕ) : ℚ) * d := by
        intro i hi
        rw [htime i hi,
          show t0 + (i : ℚ) * d - (t0 + (k : ℚ) * d) =
            ((i : ℚ) - (k : ℚ)) * d from by ring,
          abs_mul, abs_of_pos hd0]
        congr 1
        rw [Int.cast_natAbs]
        push_cast
        rw [abs_sub_comm]
      have hnfZ : (((2 * hnv + 1 : ℕ) : ℤ)) = 2 * (hnv : ℤ) + 1 := by
        push_cast
        ring
      have htap : ∀ i, i < n → (tapOk (setUp F) (t0 + (k : ℚ) * d) i ↔
          |F.time i - (t0 + (k : ℚ) * d)| ≤ W / 2) := by
        intro i hi
        rw [habs i hi]
        unfold tapOk
        rw [hidx i hi, hGnf, hnfZ]
        constructor
        · rintro ⟨h1, h2⟩
          have hm : ((k : ℤ) - (i : ℤ)).natAbs ≤ hnv := by omega
          calc ((((k : ℤ) - (i : ℤ)).natAbs : ℕ) : ℚ) * d
              ≤ (hnv : ℚ) * d :=
                mul_le_mul_of_nonneg_right (by exact_mod_cast hm)
                  (le_of_lt hd0)
            _ ≤ W / 2 := hround
        · intro hle
          have hmq : ((((k : ℤ) - (i : ℤ)).natAbs : ℕ) : ℚ) ≤ W / (2 * d) := by
            rw [le_div_iff₀ (by positivity)]
            linarith
          have hmn : ((k : ℤ) - (i : ℤ)).natAbs ≤ hnv := by
            by_contra hgt
            push_neg at hgt
            have h5 : (hnv : ℚ) + 1 ≤ ((((k : ℤ) - (i : ℤ)).natAbs : ℕ) : ℚ) := by
              exact_mod_cast hgt
            linarith
          exact ⟨by omega, by omega⟩
      have hcontrib : contribRows (setUp F) (t0 + (k : ℚ) * d) L R c =
          (List.range n).filter (fun i =>
            decide (|F.time i - (t0 + (k : ℚ) * d)| ≤ W / 2) &&
              (F.val c i).isSome) := by
        unfold contribRows winRows
        rw [filter_range'_split n L R _ hLRle hRn]
        apply List.filter_congr
        intro i hi
        rw [List.mem_range] at hi
        rw [setUp_val]
        cases hsome : (F.val c i).isSome
        · simp
        · simp only [Bool.and_true]
          by_cases hnear : |F.time i - (t0 + (k : ℚ) * d)| ≤ W / 2
          · rw [decide_eq_true hnear, decide_eq_true ((htap i hi).mpr hnear)]
            have hio := (hwin2 i).mpr ⟨hi, by
              rw [← htime i hi]
              linarith [le_of_lt heps]⟩
            rw [decide_eq_true (show L ≤ i from hio.1),
              decide_eq_true (show i < R from hio.2)]
            rfl
          · rw [decide_eq_false hnear,
              decide_eq_false (fun h => hnear ((htap i hi).mp h))]
            simp
      have hweight : ∀ i ∈ contribRows (setUp F) (t0 + (k : ℚ) * d) L R c,
          rowWt (setUp F) (t0 + (k : ℚ) * d) i = 1 := by
        intro i hi
        unfold contribRows winRows at hi
        rw [List.mem_filter, List.mem_range'_1] at hi
        obtain ⟨hiw, hcond⟩ := hi
        have hin : i < n := by omega
        rw [Bool.and_eq_true, decide_eq_true_eq] at hcond
        obtain ⟨htapi, hsomei⟩ := hcond
        obtain ⟨h1, h2⟩ := htapi
        rw [hidx i hin] at h1 h2
        rw [hGnf, hnfZ] at h2
        unfold rowWt
        rw [hidx i hin, hGfwt, getD_range_map, if_pos (by omega)]
        have hsub : ((((hnv : ℤ) + ((k : ℤ) - (i : ℤ))).toNat : ℤ) - (hnv : ℤ)) =
            (k : ℤ) - (i : ℤ) := by omega
        rw [hsub]
        have hm : ((k : ℤ) - (i : ℤ)).natAbs ≤ hnv := by omega
        unfold boxcarWeight
        rw [if_neg (not_lt.mpr (le_trans
          (mul_le_mul_of_nonneg_right
            (show ((((k : ℤ) - (i : ℤ)).natAbs : ℕ) : ℚ) ≤ (hnv : ℚ) from by
              exact_mod_cast hm)
            (le_of_lt hd0)) hround))]
      have hval1 : ∀ i ∈ contribRows (setUp F) (t0 + (k : ℚ) * d) L R c,
          rowWt (setUp F) (t0 + (k : ℚ) * d) i *
            convVal (setUp F) (stateAt ext0 (setUp F) pre).2 c i =
          (F.val c i).getD 0 := by
        intro i hi
        rw [hweight i hi, one_mul]
        unfold convVal
        rw [hKrobust, hrb]
        simp only [Bool.false_eq_true, if_false]
        rw [setUp_val]
      have hW1 : convW (setUp F) (t0 + (k : ℚ) * d) L R c =
          ((contribRows (setUp F) (t0 + (k : ℚ) * d) L R c).length : ℚ) := by
        unfold convW
        exact sum_map_one _ _ hweight
      have hD1 : convD (setUp F) (t0 + (k : ℚ) * d) L R
          (stateAt ext0 (setUp F) pre).2 c =
          ((contribRows (setUp F) (t0 + (k : ℚ) * d) L R c).map
            (fun i => (F.val c i).getD 0)).sum := by
        unfold convD
        rw [List.map_congr_left hval1]
      have hgood0 : good0 (setUp F) L R c = true := by
        unfold good0
        rw [hKtcol, if_neg hct, hKlack, hlack]
        simp
      have hgc : goodConv (setUp F) (t0 + (k : ℚ) * d) L R
          (good0 (setUp F) L R) c =
          decide ((contribRows (setUp F) (t0 + (k : ℚ) * d) L R c).length ≠ 0) := by
        unfold goodConv
        rw [hgood0, hKasym, hasym, hKq, hq]
        simp only [Bool.false_and, Bool.and_false, Bool.not_false,
          Bool.true_and, Bool.and_true]
        rfl
      rw [hgc, hcontrib]
      unfold specWindowMean
      rw [hnRows]
      by_cases hSLe : ((List.range n).filter (fun i =>
          decide (|F.time i - (t0 + (k : ℚ) * d)| ≤ W / 2) &&
            (F.val c i).isSome)).length = 0
      · rw [if_pos hSLe]
        rw [hSLe]
        simp
      · rw [if_neg hSLe, if_pos (decide_eq_true hSLe)]
        unfold convOut
        rw [hKhigh, hhp]
        simp only [Bool.false_eq_true, if_false]
        rw [hGfop, hfop]
        simp only [Bool.false_eq_true, if_false]
        rw [hD1, hW1, hcontrib]
    · exact absurd hrec (by simp)

/-- Witness for C1: the scenario series (t = 0..4, v = 1..5, boxcar width 2)
satisfies every hypothesis with t0 = 0, d = 1, n = 5; at output index 2 the
run emits the record (2, 3), and 3 is the window mean of 2, 3, 4. -/
theorem C1_boxcar_mean_witness :
    doFilter ext0 (setUp infoScenario) =
      [[some 1, some 2], [some 2, some 3], [some 3, some 4]] ∧
    (outTimes (setUp infoScenario)).getD 2 0 = 0 + ((2 : ℕ) : ℚ) * 1 ∧
    (filterStep ext0 (setUp infoScenario) (outTimes (setUp infoScenario))
      (runSmall (setUp infoScenario)) 2 (stateAt ext0 (setUp infoScenario) [1])).2 =
      some [some 2, some 3] ∧
    ([some 2, some 3] : List Val).getD 1 none =
      specWindowMean infoScenario 2 (0 + ((2 : ℕ) : ℚ) * 1) 1 ∧
    specWindowMean infoScenario 2 (0 + ((2 : ℕ) : ℚ) * 1) 1 = some 3 := by
  have H := C1_boxcar_mean.2 0 1 2 5 infoScenario
    (by norm_num) (by norm_num) (by norm_num)
    (by with_unfolding_all decide)
    (by with_unfolding_all decide)
    (by with_unfolding_all decide)
    (by with_unfolding_all decide)
    (by with_unfolding_all decide)
    (by with_unfolding_all decide)
    (by with_unfolding_all decide)
    (by with_unfolding_all decide)
    (by with_unfolding_all decide)
    (by with_unfolding_all decide)
    (by with_unfolding_all decide)
    (by with_unfolding_all decide)
    (by with_unfolding_all decide)
    [1] 2 [3] (by with_unfolding_all decide)
  obtain ⟨h1, h2, h3⟩ := H
  have hstep : (filterStep ext0 (setUp infoScenario) (outTimes (setUp infoScenario))
      (runSmall (setUp infoScenario)) 2 (stateAt ext0 (setUp infoScenario) [1])).2 =
      some [some 2, some 3] := by
    with_unfolding_all decide
  exact ⟨C1_boxcar_mean.1, h1, hstep,
    h3 [some 2, some 3] hstep 1 (by with_unfolding_all decide)
      (by with_unfolding_all decide),
    by with_unfolding_all decide⟩

end Filter1d

